import Mathlib

/-!
Shallow embedding of the BRC-20 state-transition core of the
modular-indexer-committee repository, covering:

* the committed key-value store with a pending write log
  (ord/stateless/header.go: Header, insert, get, InsertUInt256, GetUInt256,
  InsertBytes, GetBytes, Paging), and
* the BRC-20 interpreter (ord/brc20.go: GetHash, GetEventHash, deployInscribe,
  mintInscribe, saveSourceWalletAndPkscript, getSourceWalletAndPkscript,
  transferInscribe, isUsedOrInvalid, transferTransferSpendToFee,
  transferTransferNormal, Exec).

Go machine values are modelled as Nat with explicit reductions modulo 2^256
where uint256 arithmetic wraps; Go byte slices are lists of Nat (each entry a
byte); Go strings are Lean strings (the inputs relevant here are ASCII).
External libraries (encoding/json, encoding/hex, go-verkle, keccak) are
modelled by their documented contracts; in particular the verkle tree is an
opaque authenticated map and keccak-224 key derivation is modelled as an
injective structured key, matching the specification's treatment of the hash
construction as collision-free and of the tree as an opaque map.
-/

/-! ## Bytes, 256-bit arithmetic and codecs (ord value codec) -/

/-- A Go byte slice: a list of byte values. -/
abbrev Bytes := List Nat

/-- The uint256 modulus. -/
def W256 : Nat := 2 ^ 256

/-- Wrapping addition of uint256 (holiman/uint256 Add). -/
def add256 (a b : Nat) : Nat := (a + b) % W256

/-- Wrapping subtraction of uint256 (holiman/uint256 Sub): for operands below
2^256 this is a - b when a is at least b, and wraps around otherwise. -/
def sub256 (a b : Nat) : Nat := (a + (W256 - b % W256)) % W256

/-- Big-endian fixed-width byte encoding: encBE k n is the k-byte big-endian
encoding of n mod 256^k. -/
def encBE : Nat → Nat → Bytes
  | 0, _ => []
  | k + 1, n => encBE k (n / 256) ++ [n % 256]

/-- Big-endian byte decoding (uint256 SetBytes). -/
def bytesToNat (bs : Bytes) : Nat := bs.foldl (fun a b => a * 256 + b) 0

/-- convertIntToByte: the 32-byte big-endian image of a uint256
(uint256 WriteToArray32). -/
def convertIntToByte (n : Nat) : Bytes := encBE 32 n

/-- Modelled from the spec: convertByteToInt decodes a stored 32-byte slot as a
big-endian 256-bit integer, returning zero for an absent (empty) value
(spec 4.C: get_u256 is zero when absent, otherwise big-endian decode). -/
def convertByteToInt (bs : Bytes) : Nat := bytesToNat bs

theorem bytesToNat_append (xs ys : Bytes) :
    bytesToNat (xs ++ ys) = ys.foldl (fun a b => a * 256 + b) (bytesToNat xs) := by
  simp [bytesToNat, List.foldl_append]

theorem encBE_length (k n : Nat) : (encBE k n).length = k := by
  induction k generalizing n with
  | zero => rfl
  | succ k ih => simp [encBE, ih]

theorem bytesToNat_encBE (k n : Nat) : bytesToNat (encBE k n) = n % 256 ^ k := by
  induction k generalizing n with
  | zero => simp [encBE, bytesToNat, Nat.mod_one]
  | succ k ih =>
    rw [encBE, bytesToNat_append, ih]
    show n / 256 % 256 ^ k * 256 + n % 256 = n % 256 ^ (k + 1)
    rw [pow_succ', Nat.mod_mul]
    ring

theorem bytesToNat_convertIntToByte (n : Nat) :
    bytesToNat (convertIntToByte n) = n % W256 := by
  rw [convertIntToByte, bytesToNat_encBE]
  norm_num [W256]

theorem bytesToNat_convertIntToByte_of_lt {n : Nat} (h : n < W256) :
    bytesToNat (convertIntToByte n) = n := by
  rw [bytesToNat_convertIntToByte, Nat.mod_eq_of_lt h]

/-! ## Hex codec (encoding/hex) -/

/-- Hex digit value of a character, as encoding/hex accepts it
(digits, lowercase and uppercase letters). -/
def hexVal (c : Char) : Option Nat :=
  if '0' ≤ c ∧ c ≤ '9' then some (c.toNat - '0'.toNat)
  else if 'a' ≤ c ∧ c ≤ 'f' then some (c.toNat - 'a'.toNat + 10)
  else if 'A' ≤ c ∧ c ≤ 'F' then some (c.toNat - 'A'.toNat + 10)
  else none

/-- Lowercase hex digit character for a value below 16 (encoding/hex output
alphabet). -/
def hexChar (n : Nat) : Char :=
  if n < 10 then Char.ofNat ('0'.toNat + n) else Char.ofNat ('a'.toNat + (n - 10))

/-- Decode hex character pairs until the input is exhausted or a non-hex
character is hit, returning the decoded bytes and whether decoding consumed
everything (hex.DecodeString returns the bytes decoded before an error). -/
def hexDecodeCore : List Char → Bytes × Bool
  | [] => ([], true)
  | [_] => ([], false)
  | c1 :: c2 :: rest =>
    match hexVal c1, hexVal c2 with
    | some v1, some v2 =>
      let (bs, ok) := hexDecodeCore rest
      ((16 * v1 + v2) :: bs, ok)
    | _, _ => ([], false)

/-- hex.DecodeString, error case collapsed to none (full decode only). -/
def hexDecodeString (s : String) : Option Bytes :=
  let (bs, ok) := hexDecodeCore s.data
  if ok then some bs else none

/-- hex.DecodeString with the error ignored, as saveSourceWalletAndPkscript
calls it: yields the bytes decoded before any error. -/
def hexDecodePart (s : String) : Bytes := (hexDecodeCore s.data).1

/-- hex.EncodeToString over a byte list, producing lowercase hex characters. -/
def hexEncodeChars : Bytes → List Char
  | [] => []
  | b :: bs => hexChar (b / 16) :: hexChar (b % 16) :: hexEncodeChars bs

/-- hex.EncodeToString. -/
def hexEncodeString (bs : Bytes) : String := ⟨hexEncodeChars bs⟩

/-- The byte image of an ASCII Lean string, standing for the Go conversion
from string to byte slice (the inputs relevant to the claims are ASCII, where
the code-point image and the UTF-8 image agree). -/
def strBytes (s : String) : Bytes := s.data.map Char.toNat

theorem charToNat_injective : Function.Injective Char.toNat := by
  intro a b h
  have h2 := congrArg Char.ofNat h
  rwa [Char.ofNat_toNat, Char.ofNat_toNat] at h2

theorem strBytes_injective : Function.Injective strBytes := by
  intro a b h
  have hd := List.map_injective_iff.mpr charToNat_injective h
  exact congrArg String.mk hd

/-! ## The committed key-value store (ord/stateless/header.go) -/

/-- A staged write: TripleElement in ord/stateless/types. -/
structure TripleElement (κ : Type) where
  key : κ
  oldValue : Bytes
  newValue : Bytes
  oldValueExists : Bool
  deriving DecidableEq

/-- A point-updatable map from keys to 32-byte slots; models both the verkle
tree (an opaque authenticated map) and the flat KV mirror. -/
def VMap (κ : Type) := κ → Option Bytes

/-- Map update (verkle Insert / Go map assignment). -/
def VMap.update {κ : Type} [DecidableEq κ] (m : VMap κ) (k : κ) (v : Bytes) : VMap κ :=
  fun k' => if k' = k then some v else m k'

/-- The Header state: verkle root, flat KV mirror, pending write log, height
and block hash. The store is generic in the key type; the interpreter
instantiates it with the structured 32-byte keys of ord/brc20.go and the
byte-blob layer instantiates it with raw 32-byte keys. -/
structure Header (κ : Type) where
  Root : VMap κ
  KV : VMap κ
  Temp : List (TripleElement κ)
  Height : Nat
  Hash : String

/-- Right-pad (or cut) a byte list to exactly 32 bytes, the effect of copying
a Go slice into a fresh [32]byte array. -/
def pad32 (bs : Bytes) : Bytes := bs.take 32 ++ List.replicate (32 - bs.length) 0

theorem pad32_length (bs : Bytes) : (pad32 bs).length = 32 := by
  simp [pad32]
  omega

theorem pad32_of_length_32 {bs : Bytes} (h : bs.length = 32) : pad32 bs = bs := by
  simp [pad32, h, List.take_of_length_le (le_of_eq h)]

/-- Header.get: a direct authenticated read of the committed tree. -/
def Header.get {κ : Type} (h : Header κ) (k : κ) : Option Bytes := h.Root k

/-- Header.insert: reads the committed value, appends the staged triple with
both values carried in fresh 32-byte arrays, and mutates neither Root nor KV.
The public Insert wrapper is modelled from the spec (4.C/4.D): values are
fixed 32-byte slots, shorter payloads (the decoded wallet address) occupy a
single zero-padded slot, exactly what the copy into the 32-byte arrays of the
private insert produces. -/
def Header.insert {κ : Type} (h : Header κ) (k : κ) (v : Bytes) : Header κ :=
  let oldValue := h.get k
  { h with
    Temp := h.Temp ++ [{ key := k
                         oldValue := pad32 (oldValue.getD [])
                         newValue := pad32 v
                         oldValueExists := oldValue.isSome }] }

/-- Header.GetUInt256: zero when absent, otherwise big-endian decode. -/
def Header.GetUInt256 {κ : Type} (h : Header κ) (k : κ) : Nat :=
  match h.get k with
  | none => 0
  | some bs => bytesToNat bs

/-- Modelled from the spec: the KVStorage GetValueOrZero read used by
ord/brc20.go is the get_u256 read of spec 4.C (zero when absent, big-endian
decode otherwise), i.e. Header.GetUInt256; its body is not under src. -/
def Header.GetValueOrZero {κ : Type} (h : Header κ) (k : κ) : Nat := h.GetUInt256 k

/-- Header.InsertUInt256. -/
def Header.InsertUInt256 {κ : Type} (h : Header κ) (k : κ) (n : Nat) : Header κ :=
  h.insert k (convertIntToByte n)

/-- Apply a pending write log to a map in order (the Paging loop body over
KV and Root). -/
def applyTemp {κ : Type} [DecidableEq κ] (temp : List (TripleElement κ)) (m : VMap κ) :
    VMap κ :=
  temp.foldl (fun acc e => acc.update e.key e.newValue) m

/-- Header.Paging: flush every staged write into KV and Root, clear Temp,
advance Height, and when queryHash is set fetch the new block hash from the
external getter; the getter's failure is returned to the caller. The Go
method mutates its receiver and returns an error, modelled as a pair of the
mutated state and the optional error. -/
def Header.Paging {κ : Type} [DecidableEq κ] (h : Header κ)
    (g : Nat → Except String String) (queryHash : Bool) : Header κ × Option String :=
  let h' : Header κ :=
    { Root := applyTemp h.Temp h.Root
      KV := applyTemp h.Temp h.KV
      Temp := []
      Height := h.Height + 1
      Hash := h.Hash }
  if queryHash then
    match g (h.Height + 1) with
    | .error e => (h', some e)
    | .ok hs => ({ h' with Hash := hs }, none)
  else (h', none)

/-! ### The latest-staged view of the store

The value a key will hold once the pending log is paged: the latest staged
write if one exists, the committed value otherwise. This is the observable
content of the store "after a record" while its writes are still staged. -/

/-- The latest staged write for a key in a pending log. -/
def lastStaged {κ : Type} [DecidableEq κ] (temp : List (TripleElement κ)) (k : κ) :
    Option Bytes :=
  temp.foldl (fun acc e => if e.key = k then some e.newValue else acc) none

/-- The value the store will commit for a key: latest staged write, else the
committed value. -/
def Header.view {κ : Type} [DecidableEq κ] (h : Header κ) (k : κ) : Option Bytes :=
  match lastStaged h.Temp k with
  | some v => some v
  | none => h.Root k

/-- The numeric view of a key (the value GetUInt256 returns after paging). -/
def Header.viewNum {κ : Type} [DecidableEq κ] (h : Header κ) (k : κ) : Nat :=
  match h.view k with
  | none => 0
  | some bs => bytesToNat bs

theorem lastStaged_fold_init {κ : Type} [DecidableEq κ]
    (t : List (TripleElement κ)) (k : κ) (a : Option Bytes) :
    t.foldl (fun acc e => if e.key = k then some e.newValue else acc) a =
      match lastStaged t k with
      | some v => some v
      | none => a := by
  induction t generalizing a with
  | nil => simp [lastStaged]
  | cons e rest ih =>
    show rest.foldl _ (if e.key = k then some e.newValue else a) = _
    have hcons : lastStaged (e :: rest) k =
        rest.foldl (fun acc e => if e.key = k then some e.newValue else acc)
          (if e.key = k then some e.newValue else none) := rfl
    rw [ih, hcons, ih (if e.key = k then some e.newValue else none)]
    cases lastStaged rest k with
    | some v => simp
    | none => by_cases hek : e.key = k <;> simp [hek]

theorem lastStaged_append {κ : Type} [DecidableEq κ]
    (t1 t2 : List (TripleElement κ)) (k : κ) :
    lastStaged (t1 ++ t2) k =
      match lastStaged t2 k with
      | some v => some v
      | none => lastStaged t1 k := by
  show (t1 ++ t2).foldl _ none = _
  rw [List.foldl_append]
  exact lastStaged_fold_init t2 k (lastStaged t1 k)

theorem applyTemp_apply {κ : Type} [DecidableEq κ]
    (temp : List (TripleElement κ)) (m : VMap κ) (k : κ) :
    applyTemp temp m k =
      match lastStaged temp k with
      | some v => some v
      | none => m k := by
  induction temp generalizing m with
  | nil => simp [applyTemp, lastStaged]
  | cons e rest ih =>
    show applyTemp rest (m.update e.key e.newValue) k = _
    rw [ih]
    have hcons : lastStaged (e :: rest) k =
        rest.foldl (fun acc e => if e.key = k then some e.newValue else acc)
          (if e.key = k then some e.newValue else none) := rfl
    rw [hcons, lastStaged_fold_init]
    cases lastStaged rest k with
    | some v => simp
    | none =>
      by_cases hek : e.key = k
      · subst hek
        simp [VMap.update]
      · have hke : ¬k = e.key := fun hh => hek hh.symm
        simp [VMap.update, hek, hke]

/-- After Paging, the committed tree holds exactly the pre-paging view: the
staged writes override, everything else is carried over. -/
theorem Paging_Root_view {κ : Type} [DecidableEq κ] (h : Header κ)
    (g : Nat → Except String String) (q : Bool) (k : κ) :
    ((h.Paging g q).1).Root k = h.view k := by
  unfold Header.Paging Header.view
  by_cases hq : q <;> simp [hq]
  · cases g (h.Height + 1) <;> simp [applyTemp_apply]
  · simp [applyTemp_apply]

theorem Paging_Temp_nil {κ : Type} [DecidableEq κ] (h : Header κ)
    (g : Nat → Except String String) (q : Bool) :
    ((h.Paging g q).1).Temp = [] := by
  unfold Header.Paging
  by_cases hq : q <;> simp [hq]
  cases g (h.Height + 1) <;> simp

theorem Paging_view_view {κ : Type} [DecidableEq κ] (h : Header κ)
    (g : Nat → Except String String) (q : Bool) (k : κ) :
    ((h.Paging g q).1).view k = h.view k := by
  have hroot := Paging_Root_view h g q k
  unfold Header.view
  rw [Paging_Temp_nil h g q]
  unfold Header.view at hroot
  simpa [lastStaged] using hroot

theorem view_insert {κ : Type} [DecidableEq κ] (h : Header κ) (k k' : κ) (v : Bytes) :
    (h.insert k v).view k' = if k' = k then some (pad32 v) else h.view k' := by
  have htemp : (h.insert k v).Temp =
      h.Temp ++ [{ key := k
                   oldValue := pad32 ((h.get k).getD [])
                   newValue := pad32 v
                   oldValueExists := (h.get k).isSome }] := rfl
  have hroot : (h.insert k v).Root = h.Root := rfl
  unfold Header.view
  rw [htemp, hroot, lastStaged_append]
  by_cases hk : k' = k
  · subst hk
    simp [lastStaged]
  · have hone : lastStaged [{ key := k
                              oldValue := pad32 ((h.get k).getD [])
                              newValue := pad32 v
                              oldValueExists := (h.get k).isSome }] k' = none := by
      have hkk : ¬k = k' := fun hh => hk hh.symm
      simp [lastStaged, hkk]
    rw [hone]
    simp [hk]

theorem get_insert {κ : Type} (h : Header κ) (k k' : κ) (v : Bytes) :
    (h.insert k v).get k' = h.get k' := rfl

theorem Root_insert {κ : Type} (h : Header κ) (k : κ) (v : Bytes) :
    (h.insert k v).Root = h.Root := rfl

theorem KV_insert {κ : Type} (h : Header κ) (k : κ) (v : Bytes) :
    (h.insert k v).KV = h.KV := rfl

/-! ## Key derivation (ord/brc20.go) -/

/-- StateID constants of ord/brc20.go. -/
def AvailableBalancePkscript : Nat := 0

/-- tick - wallet - uint256. -/
def AvailableBalance : Nat := 1

/-- tick - pkscript - uint256. -/
def OverallBalancePkscript : Nat := 2

/-- tick - wallet - uint256. -/
def OverallBalance : Nat := 3

/-- The Exists state id (renamed: Exists is a core Lean name). -/
def TickExists : Nat := 4

/-- tick - uint256. -/
def RemainingSupply : Nat := 5

/-- tick - uint256. -/
def MaxSupply : Nat := 6

/-- tick - uint256. -/
def LimitPerMint : Nat := 7

/-- tick - uint256. -/
def Decimals : Nat := 8

/-- EventID constants of ord/brc20.go. -/
def TransferInscribeSourceWallet : Nat := 0

/-- Event id of the first source-pkscript slot. -/
def TransferInscribeSourcePkscript1 : Nat := 1

/-- Event id of the second source-pkscript slot. -/
def TransferInscribeSourcePkscript2 : Nat := 2

/-- Event id of the transfer-transfer counter. -/
def TransferTransferCount : Nat := 3

/-- Event id of the transfer-inscribe counter. -/
def TransferInscribeCount : Nat := 4

/-- The 32-byte keys of the two keyspaces. GetHash builds
keccak224(uniqueID) truncated, then the state id byte, then the plaintext
tick; GetEventHash builds the event id bytes then keccak224(inscriptionID).
The hash is an external library primitive and the specification treats the
domain-separated construction as collision-free, so the key is modelled as
the injective structured datum it encodes: the discriminating constructor
separates the keyspaces, and the fields are the preimages. -/
inductive HKey where
  | state (sid : Nat) (uid : Bytes) (tick : String)
  | event (eid : Nat) (inscr : String)
  deriving DecidableEq

/-- GetHash: the state key for a state id, a uniqueID (its byte image) and a
tick. The Go function panics when the tick length is neither 4 nor 5; the
interpreter only calls it with 4-byte ticks. -/
def GetHash (sid : Nat) (uid : Bytes) (tick : String) : HKey := HKey.state sid uid tick

/-- GetEventHash: the event key for an event id and an inscription id. -/
def GetEventHash (eid : Nat) (inscrID : String) : HKey := HKey.event eid inscrID

/-- GetTickStatus: the five registry keys of a tick. -/
def GetTickStatus (tick : String) : HKey × HKey × HKey × HKey × HKey :=
  (GetHash TickExists [] tick, GetHash RemainingSupply [] tick,
   GetHash MaxSupply [] tick, GetHash LimitPerMint [] tick,
   GetHash Decimals [] tick)

/-- The interpreter's state: the Header instantiated at the structured keys. -/
abbrev HState := Header HKey

/-! ## External collaborators and numeric helpers (modelled from the spec) -/

/-- Modelled from the spec: decodeBitcoinAddress (ord utils, not under src)
is the external address decoder of spec 6; the interpreter treats its output
as opaque canonical bytes stored in a single 32-byte value slot, so it is
modelled as a function onto 32-byte strings. -/
def decodeBitcoinAddress (a : String) : Bytes := pad32 ((strBytes a).map (· % 256))

/-- Modelled from the spec: padTo32Bytes (ord utils, not under src) right-pads
a byte slice with zeros to the 32-byte slot width. -/
def padTo32Bytes (bs : Bytes) : Bytes := bs ++ List.replicate (32 - bs.length) 0

/-- Split a character list at every occurrence of a separator
(strings.Split for a one-character separator). -/
def splitOnChar (sep : Char) : List Char → List (List Char)
  | [] => [[]]
  | c :: rest =>
    let r := splitOnChar sep rest
    if c = sep then [] :: r
    else (c :: r.headD []) :: r.tail

/-- ASCII lowercasing (strings.ToLower; the ticks relevant here are ASCII). -/
def toLowerStr (s : String) : String := ⟨s.data.map Char.toLower⟩

/-- Numeric value of a decimal digit sequence. -/
def digitsVal (cs : List Char) : Nat := cs.foldl (fun a c => a * 10 + (c.toNat - 48)) 0

/-- Modelled from the spec: is_positive_decimal without dot (spec 4.A),
accepting one or more digits. -/
def isPositiveNumber (s : String) (_strict : Bool) : Bool :=
  !s.isEmpty && s.data.all Char.isDigit

/-- Modelled from the spec: is_positive_decimal with dot (spec 4.A),
accepting digits with at most one dot and at least one digit on each side. -/
def isPositiveNumberWithDot (s : String) (_strict : Bool) : Bool :=
  match splitOnChar '.' s.data with
  | [a] => !a.isEmpty && a.all Char.isDigit
  | [a, b] => !a.isEmpty && !b.isEmpty && a.all Char.isDigit && b.all Char.isDigit
  | _ => false

/-- Modelled from the spec: to_18dp (spec 4.A): multiply the integer part by
10^18, add the fractional part scaled to 18-decimal fixed point; fail when
the fractional part has more digits than the tick's decimals, when the result
overflows 256 bits, or when decimals exceed 18. -/
def getNumberExtendedTo18Decimals (s : String) (decimals : Nat) (_allowNeg : Bool) :
    Option Nat :=
  if decimals > 18 then none
  else
    match splitOnChar '.' s.data with
    | [ip, fp] =>
      if fp.length > decimals then none
      else
        let v := digitsVal ip * 10 ^ 18 + digitsVal fp * 10 ^ (18 - fp.length)
        if v < W256 then some v else none
    | [ip] =>
      let v := digitsVal ip * 10 ^ 18
      if v < W256 then some v else none
    | _ => none

/-- The content-type acceptance of the Exec preprocessing: an optional hex
decode (kept only on full success), the parameter part after the first
semicolon stripped, and a comparison against the two accepted types. The
decoded branch compares byte images, matching the Go comparison of a
byte-built string against the ASCII literals. -/
def contentTypeOk (ct : String) : Bool :=
  match hexDecodeString ct with
  | some bs =>
    let b1 := bs.takeWhile (· ≠ 59)
    b1 = strBytes "application/json" || b1 = strBytes "text/plain"
  | none =>
    let c1 := (splitOnChar ';' ct.data).headD []
    c1 = "application/json".data || c1 = "text/plain".data

/-- An ordinal transfer record (getter.OrdTransfer). Content is modelled as
the result of json.Unmarshal of the inscription body into a flat string map;
a failed parse yields the empty map, on which every field lookup fails, which
is exactly how the interpreter consumes it. -/
structure OrdTransfer where
  ID : Nat
  InscriptionID : String
  OldSatpoint : String
  NewPkscript : String
  NewWallet : String
  SentAsFee : Bool
  ContentType : String
  Content : List (String × String)

/-! ## The BRC-20 state mutators (ord/brc20.go) -/

/-- deployInscribe: write the five registry slots of a fresh tick. -/
def deployInscribe (s : HState) (_inscrID _newPkscript _newAddr : String)
    (tick : String) (maxSupply decimals limitPerMint : Nat) : HState :=
  let (keyExists, keyRemainingSupply, keyMaxSupply, keyLimitPerMint, keyDecimals) :=
    GetTickStatus tick
  ((((s.insert keyExists (convertIntToByte 0)).insert
      keyRemainingSupply (convertIntToByte maxSupply)).insert
      keyMaxSupply (convertIntToByte maxSupply)).insert
      keyLimitPerMint (convertIntToByte limitPerMint)).insert
      keyDecimals (convertIntToByte decimals)

/-- mintInscribe: credit available and overall balances (pkscript- and
wallet-keyed, with the values computed once from the pkscript-keyed reads)
and decrement the remaining supply. -/
def mintInscribe (s : HState) (_inscrID : String) (newPkscript newAddr : String)
    (tick : String) (amount : Nat) : HState :=
  let newAddrByte := decodeBitcoinAddress newAddr
  let availableKeyP := GetHash AvailableBalancePkscript (strBytes newPkscript) tick
  let overallKeyP := GetHash OverallBalancePkscript (strBytes newPkscript) tick
  let prevAvailableBalance := s.GetValueOrZero availableKeyP
  let prevOverallBalance := s.GetValueOrZero overallKeyP
  let newAvailableBalance := add256 prevAvailableBalance amount
  let newOverallBalance := add256 prevOverallBalance amount
  let s1 := (s.insert availableKeyP (convertIntToByte newAvailableBalance)).insert
    overallKeyP (convertIntToByte newOverallBalance)
  let availableKeyW := GetHash AvailableBalance newAddrByte tick
  let overallKeyW := GetHash OverallBalance newAddrByte tick
  let s2 := (s1.insert availableKeyW (convertIntToByte newAvailableBalance)).insert
    overallKeyW (convertIntToByte newOverallBalance)
  let keyRemainingSupply := GetHash RemainingSupply [] tick
  let prevRemainingSupply := convertByteToInt ((s2.get keyRemainingSupply).getD [])
  let newRemainingSupply := sub256 prevRemainingSupply amount
  s2.insert keyRemainingSupply (convertIntToByte newRemainingSupply)

/-- saveSourceWalletAndPkscript: store the decoded source wallet in one slot
and the length-prefixed hex-decoded pkscript in one or two slots. -/
def saveSourceWalletAndPkscript (s : HState) (inscrID : String)
    (sourceAddr : Bytes) (pkScript : String) : HState :=
  let s1 := s.insert (GetEventHash TransferInscribeSourceWallet inscrID) sourceAddr
  let length := pkScript.utf8ByteSize
  let pk2 := if length % 2 = 1 then pkScript ++ "0" else pkScript
  let encodedPkscript := (length % 256) :: hexDecodePart pk2
  let b1 := padTo32Bytes (encodedPkscript.take (min encodedPkscript.length 32))
  let s2 := s1.insert (GetEventHash TransferInscribeSourcePkscript1 inscrID) b1
  if encodedPkscript.length > 32 then
    s2.insert (GetEventHash TransferInscribeSourcePkscript2 inscrID)
      (padTo32Bytes (encodedPkscript.drop 32))
  else s2

/-- getSourceWalletAndPkscript: read the stored wallet slot and rebuild the
source pkscript from the length prefix and the hex re-encoding. The Go code
indexes b[0] and slices the hex string, which panics when the event slots are
absent or too short; the total model reads a default there, and the safety
claim shows the buffer is never empty when the interpreter calls this. -/
def getSourceWalletAndPkscript (s : HState) (inscrID : String) : Bytes × String :=
  let sourceAddr := (s.get (GetEventHash TransferInscribeSourceWallet inscrID)).getD []
  let b1 := (s.get (GetEventHash TransferInscribeSourcePkscript1 inscrID)).getD []
  let b2 := (s.get (GetEventHash TransferInscribeSourcePkscript2 inscrID)).getD []
  let b := b1 ++ b2
  let length := b.headD 0
  let sourcePkscript := ⟨(hexEncodeChars (b.drop 1)).take length⟩
  (sourceAddr, sourcePkscript)

/-- The pending source buffer getSourceWalletAndPkscript indexes into. -/
def sourceBuffer (s : HState) (inscrID : String) : Bytes :=
  ((s.get (GetEventHash TransferInscribeSourcePkscript1 inscrID)).getD []) ++
    ((s.get (GetEventHash TransferInscribeSourcePkscript2 inscrID)).getD [])

/-- transferInscribe: debit the available balances by the already-read
available balance minus the amount, persist the source wallet and pkscript,
and bump the transfer-inscribe counter. -/
def transferInscribe (s : HState) (inscrID : String)
    (sourcePkScript sourceAddr : String) (tick : String)
    (amount availableBalance : Nat) : HState :=
  let sourceAddrByte := decodeBitcoinAddress sourceAddr
  let newAvailableBalance := sub256 availableBalance amount
  let s1 := s.insert (GetHash AvailableBalance sourceAddrByte tick)
    (convertIntToByte newAvailableBalance)
  let s2 := s1.insert (GetHash AvailableBalancePkscript (strBytes sourcePkScript) tick)
    (convertIntToByte newAvailableBalance)
  let s3 := saveSourceWalletAndPkscript s2 inscrID sourceAddrByte sourcePkScript
  let eventCntKey := GetEventHash TransferInscribeCount inscrID
  let newEventCnt := add256 (s3.GetValueOrZero eventCntKey) 1
  s3.insert eventCntKey (convertIntToByte newEventCnt)

/-- isUsedOrInvalid: an inscription may act as a transfer only when its
inscribe counter is exactly one and its transfer counter is zero. -/
def isUsedOrInvalid (s : HState) (inscrID : String) : Bool :=
  let transferInscribeCnt := s.GetValueOrZero (GetEventHash TransferInscribeCount inscrID)
  let transferTransferCnt := s.GetValueOrZero (GetEventHash TransferTransferCount inscrID)
  !(transferInscribeCnt == 1) || !(transferTransferCnt == 0)

/-- transferTransferSpendToFee: release the reservation back to the source
and bump the transfer-transfer counter. -/
def transferTransferSpendToFee (s : HState) (inscrID : String) (tick : String)
    (amount : Nat) (_txId : Nat) : HState :=
  let src := getSourceWalletAndPkscript s inscrID
  let availableKeyW := GetHash AvailableBalance src.1 tick
  let lastAvailableBalance := s.GetValueOrZero availableKeyW
  let newAvailableBalance := add256 lastAvailableBalance amount
  let s1 := s.insert availableKeyW (convertIntToByte newAvailableBalance)
  let s2 := s1.insert (GetHash AvailableBalancePkscript (strBytes src.2) tick)
    (convertIntToByte newAvailableBalance)
  let eventCntKey := GetEventHash TransferTransferCount inscrID
  let newTransferTransferCnt := add256 (s2.GetValueOrZero eventCntKey) 1
  s2.insert eventCntKey (convertIntToByte newTransferTransferCnt)

/-- transferTransferNormal: move the reserved amount from the source overall
balances to the destination available and overall balances, and bump the
transfer-transfer counter. -/
def transferTransferNormal (s : HState) (inscrID : String)
    (spentPkScript spentAddr : String) (tick : String) (amount : Nat)
    (_txId : Nat) : HState :=
  let spentAddrByte := decodeBitcoinAddress spentAddr
  let src := getSourceWalletAndPkscript s inscrID
  let sourceOverallKey := GetHash OverallBalance src.1 tick
  let newSourceOverallBalance := sub256 (s.GetValueOrZero sourceOverallKey) amount
  let s1 := s.insert sourceOverallKey (convertIntToByte newSourceOverallBalance)
  let s2 := s1.insert (GetHash OverallBalancePkscript (strBytes src.2) tick)
    (convertIntToByte newSourceOverallBalance)
  let spentAvailableKeyW := GetHash AvailableBalance spentAddrByte tick
  let spentOverallKeyW := GetHash OverallBalance spentAddrByte tick
  let newSpentAvailableBalance := add256 (s2.GetValueOrZero spentAvailableKeyW) amount
  let newSpentOverallBalance := add256 (s2.GetValueOrZero spentOverallKeyW) amount
  let s3 := s2.insert spentAvailableKeyW (convertIntToByte newSpentAvailableBalance)
  let s4 := s3.insert spentOverallKeyW (convertIntToByte newSpentOverallBalance)
  let s5 := s4.insert (GetHash AvailableBalancePkscript (strBytes spentPkScript) tick)
    (convertIntToByte newSpentAvailableBalance)
  let s6 := s5.insert (GetHash OverallBalancePkscript (strBytes spentPkScript) tick)
    (convertIntToByte newSpentOverallBalance)
  let eventCntKey := GetEventHash TransferTransferCount inscrID
  let newTransferTransferCnt := add256 (s6.GetValueOrZero eventCntKey) 1
  s6.insert eventCntKey (convertIntToByte newTransferTransferCnt)

/-! ## The Exec record loop (ord/brc20.go Exec)

The loop body of Exec is a validation chain that either skips the record or
dispatches to exactly one of the five mutators above (the three op guards are
mutually exclusive on the parsed op field, and every continue is a skip).
It is modelled as a classifier producing the chosen action together with the
already-computed arguments, mirroring the guard chain of the source, and a
dispatcher applying the corresponding mutator. -/

/-- The action the Exec loop body takes for one record. -/
inductive ExecAction where
  | skip
  | deploy (inscrID newPkscript newAddr tick : String)
      (maxSupply decimals limitPerMint : Nat)
  | mint (inscrID newPkscript newAddr tick : String) (amount : Nat)
  | tInscribe (inscrID newPkscript newAddr tick : String)
      (amount availableBalance : Nat)
  | tFee (inscrID tick : String) (amount : Nat) (txId : Nat)
  | tNormal (inscrID newPkscript newAddr tick : String) (amount : Nat) (txId : Nat)
  deriving DecidableEq

/-- The deploy guard chain of Exec (handle deploy). -/
def classifyDeploy (up : Nat) (s : HState) (r : OrdTransfer) (tick : String) : ExecAction :=
  match r.Content.lookup "max" with
  | none => .skip
  | some maxSupplyValue =>
    if ((s.get (GetHash TickExists [] tick)).getD []).length ≠ 0 then .skip
    else
      let decOpt : Option Nat :=
        match r.Content.lookup "dec" with
        | none => some 18
        | some decValue =>
          if !isPositiveNumber decValue false then none
          else if digitsVal decValue.data > 2 ^ 63 - 1 then none
          else some (digitsVal decValue.data)
      match decOpt with
      | none => .skip
      | some decimals =>
        if decimals > 18 then .skip
        else if !isPositiveNumberWithDot maxSupplyValue false then .skip
        else
          match getNumberExtendedTo18Decimals maxSupplyValue decimals false with
          | none => .skip
          | some maxSupply =>
            if maxSupply > up ∨ maxSupply = 0 then .skip
            else
              match r.Content.lookup "lim" with
              | none =>
                .deploy r.InscriptionID r.NewPkscript r.NewWallet tick
                  maxSupply decimals maxSupply
              | some lim =>
                if !isPositiveNumberWithDot lim false then .skip
                else
                  match getNumberExtendedTo18Decimals lim decimals false with
                  | none => .skip
                  | some limitPerMint =>
                    if limitPerMint > up ∨ limitPerMint = 0 then .skip
                    else
                      .deploy r.InscriptionID r.NewPkscript r.NewWallet tick
                        maxSupply decimals limitPerMint

/-- The mint guard chain of Exec (handle mint). -/
def classifyMint (up : Nat) (s : HState) (r : OrdTransfer) (tick : String) : ExecAction :=
  match r.Content.lookup "amt" with
  | none => .skip
  | some amountString =>
    if ((s.get (GetHash TickExists [] tick)).getD []).length = 0 then .skip
    else
      let remainingSupply :=
        convertByteToInt ((s.get (GetHash RemainingSupply [] tick)).getD [])
      let limitPerMint :=
        convertByteToInt ((s.get (GetHash LimitPerMint [] tick)).getD [])
      let decimals := convertByteToInt ((s.get (GetHash Decimals [] tick)).getD [])
      if !isPositiveNumberWithDot amountString false then .skip
      else
        match getNumberExtendedTo18Decimals amountString decimals false with
        | none => .skip
        | some amount =>
          if amount > up ∨ amount = 0 then .skip
          else if remainingSupply = 0 then .skip
          else if amount > limitPerMint then .skip
          else
            .mint r.InscriptionID r.NewPkscript r.NewWallet tick
              (if amount > remainingSupply then remainingSupply else amount)

/-- The transfer guard chain of Exec (handle transfer). -/
def classifyTransfer (up : Nat) (s : HState) (r : OrdTransfer) (tick : String) :
    ExecAction :=
  match r.Content.lookup "amt" with
  | none => .skip
  | some amountString =>
    if ((s.get (GetHash TickExists [] tick)).getD []).length = 0 then .skip
    else
      let decimals := convertByteToInt ((s.get (GetHash Decimals [] tick)).getD [])
      if !isPositiveNumberWithDot amountString false then .skip
      else
        match getNumberExtendedTo18Decimals amountString decimals false with
        | none => .skip
        | some amount =>
          if amount > up ∨ amount = 0 then .skip
          else if r.OldSatpoint = "" then
            let availableBalance :=
              s.GetValueOrZero (GetHash AvailableBalancePkscript (strBytes r.NewPkscript) tick)
            if availableBalance < amount then .skip
            else
              .tInscribe r.InscriptionID r.NewPkscript r.NewWallet tick
                amount availableBalance
          else
            if isUsedOrInvalid s r.InscriptionID then .skip
            else if r.SentAsFee then .tFee r.InscriptionID tick amount r.ID
            else .tNormal r.InscriptionID r.NewPkscript r.NewWallet tick amount r.ID

/-- The record preprocessing and op dispatch of the Exec loop body. -/
def classify (up : Nat) (s : HState) (r : OrdTransfer) : ExecAction :=
  if r.SentAsFee ∧ r.OldSatpoint = "" then .skip
  else if r.ContentType = "" then .skip
  else if ¬contentTypeOk r.ContentType then .skip
  else
    match r.Content.lookup "tick", r.Content.lookup "op" with
    | some tick0, some op =>
      let tick := toLowerStr tick0
      if tick.utf8ByteSize ≠ 4 then .skip
      else if op = "deploy" then
        if r.OldSatpoint = "" then classifyDeploy up s r tick else .skip
      else if op = "mint" then
        if r.OldSatpoint = "" then classifyMint up s r tick else .skip
      else if op = "transfer" then classifyTransfer up s r tick
      else .skip
    | _, _ => .skip

/-- Dispatch of the chosen action to the mutators. -/
def perform (s : HState) : ExecAction → HState
  | .skip => s
  | .deploy inscrID pk ad tick maxS dec lim => deployInscribe s inscrID pk ad tick maxS dec lim
  | .mint inscrID pk ad tick a => mintInscribe s inscrID pk ad tick a
  | .tInscribe inscrID pk ad tick a av => transferInscribe s inscrID pk ad tick a av
  | .tFee inscrID tick a tx => transferTransferSpendToFee s inscrID tick a tx
  | .tNormal inscrID pk ad tick a tx => transferTransferNormal s inscrID pk ad tick a tx

/-- One iteration of the Exec loop. -/
def execStep (up : Nat) (s : HState) (r : OrdTransfer) : HState :=
  perform s (classify up s r)

/-- Exec over an ordered batch of records. The upper limit is the single
environment tunable of spec 6 (getLimit, not under src), passed explicitly. -/
def Exec (up : Nat) (s : HState) (ordTransfer : List OrdTransfer) : HState :=
  ordTransfer.foldl (execStep up) s

/-! ## The byte-blob layer over raw 32-byte keys
(ord/stateless/header.go InsertBytes and GetBytes)

These operate on the keys as raw byte vectors: slot addressing rewrites the
suffix byte at index StemSize = 31 (verkle KeySize = 32, NodeWidth = 256,
ValueSize = 32). -/

/-- Header.InsertBytes. The guard models the Go panic when the blob exceeds
the slots available after the stem suffix; the slot loop stores chunk i at
suffix plus i, after the slot count was written at the unmodified key. -/
def Header.InsertBytes (h : Header Bytes) (key : Bytes) (value : Bytes) :
    Option (Header Bytes) :=
  let expectedSize := (256 - key.getD 31 0) * 32
  if value.length > expectedSize then none
  else
    let requiredSlots := (value.length + 32 - 1) / 32
    let h1 := h.InsertUInt256 key (requiredSlots)
    some ((List.range requiredSlots).foldl
      (fun hh i =>
        let newKey := key.set 31 ((key.getD 31 0 + i) % 256)
        hh.insert newKey ((value.drop (i * 32)).take 32))
      h1)

/-- Header.GetBytes: read the slot count at the key, then concatenate that
many slots starting at the unmodified suffix. -/
def Header.GetBytes (h : Header Bytes) (key : Bytes) : Bytes :=
  let requiredSlots := h.GetUInt256 key
  (List.range requiredSlots).foldl
    (fun acc i =>
      let newKey := key.set 31 ((key.getD 31 0 + i) % 256)
      acc ++ ((h.get newKey).getD []))
    []

/-! ## Frame lemmas: the Exec loop never mutates the committed maps -/

theorem Root_saveSource (s : HState) (i : String) (w : Bytes) (p : String) :
    (saveSourceWalletAndPkscript s i w p).Root = s.Root := by
  unfold saveSourceWalletAndPkscript
  dsimp only
  split <;> split <;> rfl

theorem KV_saveSource (s : HState) (i : String) (w : Bytes) (p : String) :
    (saveSourceWalletAndPkscript s i w p).KV = s.KV := by
  unfold saveSourceWalletAndPkscript
  dsimp only
  split <;> split <;> rfl

theorem Root_perform (s : HState) (a : ExecAction) : (perform s a).Root = s.Root := by
  cases a with
  | skip => rfl
  | deploy i pk ad t m d l => rfl
  | mint i pk ad t am => rfl
  | tInscribe i pk ad t am av =>
    show ((saveSourceWalletAndPkscript _ _ _ _).insert _ _).Root = s.Root
    rw [Root_insert, Root_saveSource]
    rfl
  | tFee i t am tx => rfl
  | tNormal i pk ad t am tx => rfl

theorem KV_perform (s : HState) (a : ExecAction) : (perform s a).KV = s.KV := by
  cases a with
  | skip => rfl
  | deploy i pk ad t m d l => rfl
  | mint i pk ad t am => rfl
  | tInscribe i pk ad t am av =>
    show ((saveSourceWalletAndPkscript _ _ _ _).insert _ _).KV = s.KV
    rw [KV_insert, KV_saveSource]
    rfl
  | tFee i t am tx => rfl
  | tNormal i pk ad t am tx => rfl

theorem Root_execStep (up : Nat) (s : HState) (r : OrdTransfer) :
    (execStep up s r).Root = s.Root := Root_perform s (classify up s r)

theorem KV_execStep (up : Nat) (s : HState) (r : OrdTransfer) :
    (execStep up s r).KV = s.KV := KV_perform s (classify up s r)

theorem Root_Exec (up : Nat) (s : HState) (rs : List OrdTransfer) :
    (Exec up s rs).Root = s.Root := by
  induction rs generalizing s with
  | nil => rfl
  | cons r rest ih =>
    show (Exec up (execStep up s r) rest).Root = s.Root
    rw [ih, Root_execStep]

theorem KV_Exec (up : Nat) (s : HState) (rs : List OrdTransfer) :
    (Exec up s rs).KV = s.KV := by
  induction rs generalizing s with
  | nil => rfl
  | cons r rest ih =>
    show (Exec up (execStep up s r) rest).KV = s.KV
    rw [ih, KV_execStep]

/-! ## Concrete fixtures -/

/-- The empty interpreter state (a fresh Header over the structured keys). -/
def initialHState : HState :=
  { Root := fun _ => none, KV := fun _ => none, Temp := [], Height := 0, Hash := "" }

/-- The empty store over raw byte keys. -/
def initialBHeader : Header Bytes :=
  { Root := fun _ => none, KV := fun _ => none, Temp := [], Height := 0, Hash := "" }

/-- A getter that always yields a block hash. -/
def getterOk : Nat → Except String String := fun _ => .ok "00"

/-- A getter whose block-hash fetch fails. -/
def getterFail : Nat → Except String String := fun _ => .error "hash fetch failed"

/-- Upper limit used in the concrete scenarios. -/
def exUpperLimit : Nat := 10 ^ 30

/-- A deploy record: tick abcd, max 1000, default decimals. -/
def exDeployRec : OrdTransfer :=
  { ID := 1, InscriptionID := "i0", OldSatpoint := "", NewPkscript := "00aa",
    NewWallet := "addr1", SentAsFee := false, ContentType := "text/plain",
    Content := [("p", "brc-20"), ("op", "deploy"), ("tick", "abcd"), ("max", "1000")] }

/-- A mint record: 100 of tick abcd to pkscript 00aa / wallet addr1. -/
def exMintRec : OrdTransfer :=
  { ID := 2, InscriptionID := "i1", OldSatpoint := "", NewPkscript := "00aa",
    NewWallet := "addr1", SentAsFee := false, ContentType := "text/plain",
    Content := [("p", "brc-20"), ("op", "mint"), ("tick", "abcd"), ("amt", "100")] }

/-- A transfer-inscribe record of 100 of tick abcd on the minted output. -/
def exInscribeRec (i : String) : OrdTransfer :=
  { ID := 3, InscriptionID := i, OldSatpoint := "", NewPkscript := "00aa",
    NewWallet := "addr1", SentAsFee := false, ContentType := "text/plain",
    Content := [("p", "brc-20"), ("op", "transfer"), ("tick", "abcd"), ("amt", "100")] }

/-- A spend record for an inscription, moving it to pkscript 00bb / addr2. -/
def exSpendRec (i : String) : OrdTransfer :=
  { ID := 4, InscriptionID := i, OldSatpoint := "x:0:0", NewPkscript := "00bb",
    NewWallet := "addr2", SentAsFee := false, ContentType := "text/plain",
    Content := [("p", "brc-20"), ("op", "transfer"), ("tick", "abcd"), ("amt", "100")] }

/-! ## Claim C5 -/

/-- Claim C5: for every 32-byte key and 32-byte value, insert appends the
triple of key, old committed value (an all-zero slot with the old-existed
flag cleared when the key was absent), new value and old-existed flag to
Temp, and mutates neither Root nor KV; consequently a direct get of the same
key later in the same block still returns the previously committed value.
The hypothesis on stored widths reflects that every committed slot is
32 bytes wide. -/
theorem claim_C5_insert_stages (h : Header Bytes) (k v : Bytes)
    (hk : k.length = 32) (hv : v.length = 32)
    (hw : ∀ ov, h.get k = some ov → ov.length = 32) :
    (h.insert k v).Temp =
      h.Temp ++ [{ key := k
                   oldValue := (h.get k).getD (List.replicate 32 0)
                   newValue := v
                   oldValueExists := (h.get k).isSome }] ∧
    (h.insert k v).Root = h.Root ∧
    (h.insert k v).KV = h.KV ∧
    (∀ k', (h.insert k v).get k' = h.get k') := by
  refine ⟨?_, rfl, rfl, fun k' => rfl⟩
  show h.Temp ++ [{ key := k
                    oldValue := pad32 ((h.get k).getD [])
                    newValue := pad32 v
                    oldValueExists := (h.get k).isSome }] = _
  rw [pad32_of_length_32 hv]
  cases hgk : h.get k with
  | none => simp [pad32]
  | some ov => simp [pad32_of_length_32 (hw ov hgk)]

/-- Witness for claim C5 at a concrete key and value over the empty store. -/
theorem claim_C5_witness :
    (List.replicate 32 (0 : Nat)).length = 32 ∧
    (List.replicate 32 (1 : Nat)).length = 32 ∧
    ((initialBHeader.insert (List.replicate 32 0) (List.replicate 32 1)).Temp =
        initialBHeader.Temp ++
          [{ key := List.replicate 32 0
             oldValue := (initialBHeader.get (List.replicate 32 0)).getD
               (List.replicate 32 0)
             newValue := List.replicate 32 1
             oldValueExists := (initialBHeader.get (List.replicate 32 0)).isSome }] ∧
      (initialBHeader.insert (List.replicate 32 0) (List.replicate 32 1)).Root =
        initialBHeader.Root ∧
      (initialBHeader.insert (List.replicate 32 0) (List.replicate 32 1)).KV =
        initialBHeader.KV ∧
      (∀ k', (initialBHeader.insert (List.replicate 32 0) (List.replicate 32 1)).get k' =
        initialBHeader.get k')) :=
  ⟨by decide, by decide,
    claim_C5_insert_stages initialBHeader (List.replicate 32 0) (List.replicate 32 1)
      (by decide) (by decide) (fun ov hov => nomatch hov)⟩

/-! ## Claim C1 -/

set_option maxRecDepth 100000 in
/-- Claim C1 counterexample: in the single batch deploy-then-mint over the
empty state, the exists read Exec performs to validate the mint record (the
second record) returns none although the first record staged the exists
write for the same tick in the same batch, and the mint is therefore
skipped: the reads of record i do not reflect the inserts staged by records
before i. -/
theorem claim_C1_counterexample :
    (execStep exUpperLimit initialHState exDeployRec).get
        (GetHash TickExists [] "abcd") = none ∧
    lastStaged (execStep exUpperLimit initialHState exDeployRec).Temp
        (GetHash TickExists [] "abcd") = some (convertIntToByte 0) ∧
    classify exUpperLimit (execStep exUpperLimit initialHState exDeployRec)
        exMintRec = ExecAction.skip ∧
    Exec exUpperLimit initialHState [exDeployRec, exMintRec] =
      Exec exUpperLimit initialHState [exDeployRec] := by
  have hc : classify exUpperLimit (execStep exUpperLimit initialHState exDeployRec)
      exMintRec = ExecAction.skip := by decide
  refine ⟨by decide, by decide, hc, ?_⟩
  show execStep exUpperLimit (execStep exUpperLimit initialHState exDeployRec)
      exMintRec = execStep exUpperLimit initialHState exDeployRec
  rw [execStep, hc]
  rfl

/-- Claim C1 (amended): during a single call to Exec over an ordered batch,
every record observes only the committed pre-batch state: Exec leaves Root
and KV untouched, so every read it performs (available balances, remaining
supply, tick existence, event counters all go through get on Root) returns
the value committed before the batch; the writes staged by earlier records
of the batch become observable only after Paging. -/
theorem claim_C1_amended_reads_committed (up : Nat) (s : HState)
    (rs : List OrdTransfer) :
    (Exec up s rs).Root = s.Root ∧ (Exec up s rs).KV = s.KV ∧
    ∀ k, (Exec up s rs).get k = s.get k := by
  refine ⟨Root_Exec up s rs, KV_Exec up s rs, fun k => ?_⟩
  show (Exec up s rs).Root k = s.Root k
  rw [Root_Exec]

/-! ## Claim C3 -/

/-- A store with one staged write pending. -/
def stagedBHeader : Header Bytes :=
  { Root := fun _ => none, KV := fun _ => none
    Temp := [{ key := List.replicate 32 0
               oldValue := List.replicate 32 0
               newValue := List.replicate 32 1
               oldValueExists := false }]
    Height := 0, Hash := "" }

/-- Claim C3 counterexample: when the block-hash fetch fails, Paging returns
the error but KV, Root, Temp and Height have all changed: the staged write
sits in KV and Root, Temp is cleared and Height is incremented. -/
theorem claim_C3_counterexample :
    (stagedBHeader.Paging getterFail true).2 = some "hash fetch failed" ∧
    (stagedBHeader.Paging getterFail true).1.Temp ≠ stagedBHeader.Temp ∧
    (stagedBHeader.Paging getterFail true).1.Height ≠ stagedBHeader.Height ∧
    (stagedBHeader.Paging getterFail true).1.KV (List.replicate 32 0) =
      some (List.replicate 32 1) ∧
    stagedBHeader.KV (List.replicate 32 0) = none ∧
    (stagedBHeader.Paging getterFail true).1.Root (List.replicate 32 0) =
      some (List.replicate 32 1) ∧
    stagedBHeader.Root (List.replicate 32 0) = none := by
  decide

/-- Claim C3 (amended): if the block-hash fetch fails, Paging surfaces the
error to the caller, but only after the batch has been fully applied: every
staged write is flushed into KV and Root, Temp is cleared and Height is
incremented; the Hash field alone is left unchanged. -/
theorem claim_C3_paging_error_applies {κ : Type} [DecidableEq κ] (h : Header κ)
    (g : Nat → Except String String) (e : String)
    (hg : g (h.Height + 1) = .error e) :
    h.Paging g true =
      ({ Root := applyTemp h.Temp h.Root
         KV := applyTemp h.Temp h.KV
         Temp := []
         Height := h.Height + 1
         Hash := h.Hash }, some e) := by
  unfold Header.Paging
  simp [hg]

/-- Witness for amended claim C3 at the one-staged-write store and the
failing getter. -/
theorem claim_C3_witness :
    getterFail (stagedBHeader.Height + 1) = Except.error "hash fetch failed" ∧
    stagedBHeader.Paging getterFail true =
      ({ Root := applyTemp stagedBHeader.Temp stagedBHeader.Root
         KV := applyTemp stagedBHeader.Temp stagedBHeader.KV
         Temp := []
         Height := stagedBHeader.Height + 1
         Hash := stagedBHeader.Hash }, some "hash fetch failed") :=
  ⟨rfl, claim_C3_paging_error_applies stagedBHeader getterFail
    "hash fetch failed" rfl⟩

/-! ## Claim C9 -/

/-- A raw stem key with suffix byte zero. -/
def stemKey0 : Bytes := List.replicate 32 0

/-- A one-slot blob of 0x07 bytes. -/
def blob7 : Bytes := List.replicate 32 7

/-- Claim C9 evidence: for the 32-zero stem key and a one-slot blob of 0x07
bytes (slot count 1, well within node_width minus suffix), InsertBytes stages
the slot count at the stem key but then stores data chunk i at suffix plus i,
so chunk 0 lands on the stem key itself: after paging, the slot at the stem
key holds the blob chunk instead of the slot count 1, and the slot at
suffix 1, where the claim and the code comment place the blob, is empty.
GetBytes would then read the first data chunk as the count. -/
theorem claim_C9_counterexample :
    (initialBHeader.InsertBytes stemKey0 blob7).map
        (fun h1 => (((h1.Paging getterOk false).1).get stemKey0,
                    ((h1.Paging getterOk false).1).get (stemKey0.set 31 1))) =
      some (some blob7, none) ∧
    blob7 ≠ convertIntToByte 1 := by
  decide

/-! ## Claim C6 -/

/-- State after block 1: the deploy of tick abcd, paged. -/
def exDeployedState : HState :=
  ((Exec exUpperLimit initialHState [exDeployRec]).Paging getterOk true).1

/-- State after block 2: 100 abcd minted to pkscript 00aa / wallet addr1. -/
def exMintedState : HState :=
  ((Exec exUpperLimit exDeployedState [exMintRec]).Paging getterOk true).1

/-- State after block 3: two transfer inscriptions i2 and i3, each reserving
the full available balance of 100, staged in the same batch: both read the
same committed available balance, so both pass the balance guard. -/
def exDoubleInscribedState : HState :=
  ((Exec exUpperLimit exMintedState
    [exInscribeRec "i2", exInscribeRec "i3"]).Paging getterOk true).1

/-- State after block 4: the normal spend of inscription i2. -/
def exSpentOnceState : HState :=
  ((Exec exUpperLimit exDoubleInscribedState [exSpendRec "i2"]).Paging getterOk true).1

/-- State after block 5: the normal spend of inscription i3. -/
def exSpentTwiceState : HState :=
  ((Exec exUpperLimit exSpentOnceState [exSpendRec "i3"]).Paging getterOk true).1

set_option maxRecDepth 1000000 in
/-- Claim C6 evidence: after deploy, a mint of 100, and two same-batch
transfer inscriptions of 100 each (both validated against the same committed
available balance), spending both inscriptions in later blocks drives the
source overall balance through a subtraction whose minuend 0 is smaller than
the subtrahend 100 times 10 to the 18: the second spend is classified as a
normal transfer, and the stored overall balances wrap around to
2 to the 256 minus 100 times 10 to the 18. -/
theorem claim_C6_underflow :
    exSpentOnceState.GetValueOrZero
        (GetHash OverallBalance (decodeBitcoinAddress "addr1") "abcd") = 0 ∧
    classify exUpperLimit exSpentOnceState (exSpendRec "i3") =
      ExecAction.tNormal "i3" "00bb" "addr2" "abcd" (100 * 10 ^ 18) 4 ∧
    exSpentTwiceState.GetValueOrZero
        (GetHash OverallBalance (decodeBitcoinAddress "addr1") "abcd") =
      W256 - 100 * 10 ^ 18 ∧
    exSpentTwiceState.GetValueOrZero
        (GetHash OverallBalancePkscript (strBytes "00aa") "abcd") =
      W256 - 100 * 10 ^ 18 := by
  refine ⟨by decide, by decide, by decide, by decide⟩

/-! ## Classifier inversion lemmas -/

theorem classify_eq_mint (up : Nat) (s : HState) (r : OrdTransfer) (tick0 : String)
    (hfee : r.SentAsFee = false) (hcte : r.ContentType ≠ "")
    (hctok : contentTypeOk r.ContentType = true)
    (htick : r.Content.lookup "tick" = some tick0)
    (hop : r.Content.lookup "op" = some "mint")
    (hlen : (toLowerStr tick0).utf8ByteSize = 4)
    (hsat : r.OldSatpoint = "") :
    classify up s r = classifyMint up s r (toLowerStr tick0) := by
  unfold classify
  rw [htick, hop]
  dsimp only
  rw [if_neg (by simp [hfee]), if_neg hcte, if_neg (by simp [hctok]),
    if_neg (by simp [hlen]), if_neg (by decide), if_pos rfl, if_pos hsat]

theorem classify_eq_deploy (up : Nat) (s : HState) (r : OrdTransfer) (tick0 : String)
    (hfee : r.SentAsFee = false) (hcte : r.ContentType ≠ "")
    (hctok : contentTypeOk r.ContentType = true)
    (htick : r.Content.lookup "tick" = some tick0)
    (hop : r.Content.lookup "op" = some "deploy")
    (hlen : (toLowerStr tick0).utf8ByteSize = 4)
    (hsat : r.OldSatpoint = "") :
    classify up s r = classifyDeploy up s r (toLowerStr tick0) := by
  unfold classify
  rw [htick, hop]
  dsimp only
  rw [if_neg (by simp [hfee]), if_neg hcte, if_neg (by simp [hctok]),
    if_neg (by simp [hlen]), if_pos rfl, if_pos hsat]

/-- With op equal to deploy, the loop body either skips the record or runs
the deploy guard chain. -/
theorem classify_op_deploy_cases (up : Nat) (s : HState) (r : OrdTransfer)
    (tick0 : String)
    (htick : r.Content.lookup "tick" = some tick0)
    (hop : r.Content.lookup "op" = some "deploy") :
    classify up s r = ExecAction.skip ∨
      classify up s r = classifyDeploy up s r (toLowerStr tick0) := by
  unfold classify
  rw [htick, hop]
  dsimp only
  split
  · exact Or.inl rfl
  split
  · exact Or.inl rfl
  split
  · exact Or.inl rfl
  split
  · exact Or.inl rfl
  rw [if_pos rfl]
  split
  · exact Or.inr rfl
  · exact Or.inl rfl

/-! ## Arithmetic facts about the wrapped operations -/

theorem W256_pos : 0 < W256 := by norm_num [W256]

theorem add256_lt (a b : Nat) : add256 a b < W256 := Nat.mod_lt _ W256_pos

theorem sub256_lt (a b : Nat) : sub256 a b < W256 := Nat.mod_lt _ W256_pos

theorem sub256_self (a : Nat) : sub256 a a = 0 := by
  have h1 := Nat.div_add_mod a W256
  have h2 : a % W256 < W256 := Nat.mod_lt _ W256_pos
  rw [sub256]
  have h3 : a + (W256 - a % W256) = W256 * (a / W256 + 1) := by
    rw [Nat.mul_add, Nat.mul_one]
    omega
  rw [h3, Nat.mul_mod_right]

theorem sub256_of_le {a b : Nat} (hba : b ≤ a) (ha : a < W256) :
    sub256 a b = a - b := by
  have hb : b < W256 := lt_of_le_of_lt hba ha
  rw [sub256, Nat.mod_eq_of_lt hb]
  have h3 : a + (W256 - b) = W256 + (a - b) := by omega
  rw [h3, Nat.add_mod_left, Nat.mod_eq_of_lt (by omega)]

theorem add256_of_lt {a b : Nat} (h : a + b < W256) : add256 a b = a + b := by
  rw [add256, Nat.mod_eq_of_lt h]

theorem bytesToNat_pad32_convert (n : Nat) :
    bytesToNat (pad32 (convertIntToByte n)) = n % W256 := by
  rw [pad32_of_length_32, bytesToNat_convertIntToByte]
  rw [convertIntToByte]
  exact encBE_length 32 n

/-! ## View lemmas for the mutators -/

theorem viewNum_insert_self (s : HState) (k : HKey) (n : Nat) :
    (s.insert k (convertIntToByte n)).viewNum k = n % W256 := by
  rw [Header.viewNum, view_insert, if_pos rfl]
  exact bytesToNat_pad32_convert n

theorem viewNum_insert_other (s : HState) (k k' : HKey) (v : Bytes) (hk : k' ≠ k) :
    (s.insert k v).viewNum k' = s.viewNum k' := by
  rw [Header.viewNum, view_insert, if_neg hk, Header.viewNum]

/-- After mintInscribe, the staged remaining supply is the committed
remaining supply minus the amount (under uint256 wrap). -/
theorem mintInscribe_viewNum_remaining (s : HState) (i pk ad tick : String)
    (amount : Nat) :
    (mintInscribe s i pk ad tick amount).viewNum (GetHash RemainingSupply [] tick) =
      sub256 (convertByteToInt ((s.get (GetHash RemainingSupply [] tick)).getD []))
        amount := by
  unfold mintInscribe
  dsimp only
  rw [Header.viewNum, view_insert, if_pos rfl]
  dsimp only
  rw [bytesToNat_pad32_convert]
  have hs : ∀ (h2 : HState) (k2 : HKey) (v2 : Bytes),
      (h2.insert k2 v2).get (GetHash RemainingSupply [] tick) =
        h2.get (GetHash RemainingSupply [] tick) := fun _ _ _ => rfl
  rw [hs, hs, hs, hs]
  have hlt : sub256 (convertByteToInt
      ((s.get (GetHash RemainingSupply [] tick)).getD [])) amount < W256 :=
    sub256_lt _ _
  rw [Nat.mod_eq_of_lt hlt]

/-- After mintInscribe, the staged pkscript-keyed available balance is the
committed balance plus the amount (under uint256 wrap). -/
theorem mintInscribe_viewNum_avail (s : HState) (i pk ad tick : String)
    (amount : Nat) :
    (mintInscribe s i pk ad tick amount).viewNum
        (GetHash AvailableBalancePkscript (strBytes pk) tick) =
      add256 (s.GetValueOrZero (GetHash AvailableBalancePkscript (strBytes pk) tick))
        amount := by
  unfold mintInscribe
  dsimp only
  rw [viewNum_insert_other, viewNum_insert_other, viewNum_insert_other,
    viewNum_insert_other, viewNum_insert_self, Nat.mod_eq_of_lt (add256_lt _ _)]
  · simp [GetHash, OverallBalancePkscript, AvailableBalancePkscript]
  · simp [GetHash, AvailableBalance, AvailableBalancePkscript]
  · simp [GetHash, OverallBalance, AvailableBalancePkscript]
  · simp [GetHash, RemainingSupply, AvailableBalancePkscript]

/-! ## Claim C4 -/

/-- Claim C4: for every mint record Exec accepts on a deployed tick
(preprocessing passed, tick deployed, amount parsed, within the global
limit), writing remaining for the committed remaining supply and limit for
the committed limit per mint: the record is skipped entirely when the
remaining supply is zero or the parsed amount exceeds the limit per mint;
otherwise the mint of the clamped amount runs, the credited amount is at most
the limit per mint and at most the remaining supply as read before the mint,
the pkscript-keyed available balance is credited by exactly that amount, and
when the parsed amount exceeds the remaining supply the credited amount is
the remaining supply and the staged remaining supply becomes zero. -/
theorem claim_C4_mint_limits (up : Nat) (s : HState) (r : OrdTransfer)
    (tick0 tick amtStr : String) (A0 remaining limit : Nat)
    (hfee : r.SentAsFee = false)
    (hcte : r.ContentType ≠ "")
    (hctok : contentTypeOk r.ContentType = true)
    (htick : r.Content.lookup "tick" = some tick0)
    (hop : r.Content.lookup "op" = some "mint")
    (htl : toLowerStr tick0 = tick)
    (hlen : tick.utf8ByteSize = 4)
    (hsat : r.OldSatpoint = "")
    (hamt : r.Content.lookup "amt" = some amtStr)
    (hex : ((s.get (GetHash TickExists [] tick)).getD []).length ≠ 0)
    (hremv : convertByteToInt ((s.get (GetHash RemainingSupply [] tick)).getD []) =
      remaining)
    (hlimv : convertByteToInt ((s.get (GetHash LimitPerMint [] tick)).getD []) =
      limit)
    (hpos : isPositiveNumberWithDot amtStr false = true)
    (hparse : getNumberExtendedTo18Decimals amtStr
      (convertByteToInt ((s.get (GetHash Decimals [] tick)).getD [])) false = some A0)
    (hup : ¬(A0 > up ∨ A0 = 0)) :
    execStep up s r = perform s (classifyMint up s r tick) ∧
    (remaining = 0 → execStep up s r = s) ∧
    (A0 > limit → execStep up s r = s) ∧
    (remaining ≠ 0 → ¬A0 > limit →
      classifyMint up s r tick =
        ExecAction.mint r.InscriptionID r.NewPkscript r.NewWallet tick
          (if A0 > remaining then remaining else A0) ∧
      (if A0 > remaining then remaining else A0) ≤ limit ∧
      (if A0 > remaining then remaining else A0) ≤ remaining ∧
      ((execStep up s r).viewNum
          (GetHash AvailableBalancePkscript (strBytes r.NewPkscript) tick) =
        add256 (s.GetValueOrZero
            (GetHash AvailableBalancePkscript (strBytes r.NewPkscript) tick))
          (if A0 > remaining then remaining else A0)) ∧
      (A0 > remaining →
        (execStep up s r).viewNum (GetHash RemainingSupply [] tick) = 0)) := by
  have hcl : classify up s r = classifyMint up s r tick := by
    have hc := classify_eq_mint up s r tick0 hfee hcte hctok htick hop
      (by rw [htl]; exact hlen) hsat
    rwa [htl] at hc
  have hbody : classifyMint up s r tick =
      (if remaining = 0 then ExecAction.skip
       else if A0 > limit then ExecAction.skip
       else ExecAction.mint r.InscriptionID r.NewPkscript r.NewWallet tick
         (if A0 > remaining then remaining else A0)) := by
    unfold classifyMint
    rw [hamt]
    dsimp only
    rw [if_neg hex, if_neg (by simp [hpos]), hparse]
    dsimp only
    rw [if_neg hup, hremv, hlimv]
  refine ⟨by rw [execStep, hcl], ?_, ?_, ?_⟩
  · intro h0
    rw [execStep, hcl, hbody, if_pos h0]
    rfl
  · intro hgt
    rw [execStep, hcl, hbody]
    by_cases h0 : remaining = 0
    · rw [if_pos h0]
      rfl
    · rw [if_neg h0, if_pos hgt]
      rfl
  · intro h0 hle
    have hb2 : classifyMint up s r tick =
        ExecAction.mint r.InscriptionID r.NewPkscript r.NewWallet tick
          (if A0 > remaining then remaining else A0) := by
      rw [hbody, if_neg h0, if_neg hle]
    refine ⟨hb2, ?_, ?_, ?_, ?_⟩
    · by_cases hc : A0 > remaining
      · rw [if_pos hc]; omega
      · rw [if_neg hc]; omega
    · by_cases hc : A0 > remaining
      · rw [if_pos hc]
      · rw [if_neg hc]; omega
    · rw [execStep, hcl, hb2]
      exact mintInscribe_viewNum_avail s r.InscriptionID r.NewPkscript r.NewWallet
        tick (if A0 > remaining then remaining else A0)
    · intro hclamp
      rw [execStep, hcl, hb2, if_pos hclamp]
      show (mintInscribe s r.InscriptionID r.NewPkscript r.NewWallet tick
        remaining).viewNum (GetHash RemainingSupply [] tick) = 0
      rw [mintInscribe_viewNum_remaining, hremv, sub256_self]

set_option maxRecDepth 1000000 in
/-- Witness for claim C4: the mint of 100 on the freshly deployed tick abcd
(remaining supply and limit per mint both 1000 times 10 to the 18) is
accepted unclamped. -/
theorem claim_C4_witness :
    (1000 * 10 ^ 18 : Nat) ≠ 0 ∧
    ¬(100 * 10 ^ 18 : Nat) > 1000 * 10 ^ 18 ∧
    classifyMint exUpperLimit exDeployedState exMintRec "abcd" =
      ExecAction.mint "i1" "00aa" "addr1" "abcd"
        (if (100 * 10 ^ 18 : Nat) > 1000 * 10 ^ 18 then 1000 * 10 ^ 18
         else 100 * 10 ^ 18) :=
  ⟨by decide, by decide,
    ((claim_C4_mint_limits exUpperLimit exDeployedState exMintRec "abcd" "abcd" "100"
        (100 * 10 ^ 18) (1000 * 10 ^ 18) (1000 * 10 ^ 18)
        rfl (by decide) (by decide) (by decide) (by decide) (by decide) (by decide)
        rfl (by decide) (by decide) (by decide) (by decide) (by decide) (by decide)
        (by decide)).2.2.2 (by decide) (by decide)).1⟩

/-! ## Claim C8 -/

/-- Claim C8: a deploy record for a tick whose exists key is already set
(non-empty in the committed state) is skipped and leaves the whole state, in
particular all five tick-registry values, unchanged. -/
theorem claim_C8_duplicate_deploy_skipped (up : Nat) (s : HState)
    (r : OrdTransfer) (tick0 tick : String)
    (htick : r.Content.lookup "tick" = some tick0)
    (hop : r.Content.lookup "op" = some "deploy")
    (htl : toLowerStr tick0 = tick)
    (hex : ((s.get (GetHash TickExists [] tick)).getD []).length ≠ 0) :
    execStep up s r = s ∧
    (execStep up s r).viewNum (GetHash TickExists [] tick) =
      s.viewNum (GetHash TickExists [] tick) ∧
    (execStep up s r).viewNum (GetHash RemainingSupply [] tick) =
      s.viewNum (GetHash RemainingSupply [] tick) ∧
    (execStep up s r).viewNum (GetHash MaxSupply [] tick) =
      s.viewNum (GetHash MaxSupply [] tick) ∧
    (execStep up s r).viewNum (GetHash LimitPerMint [] tick) =
      s.viewNum (GetHash LimitPerMint [] tick) ∧
    (execStep up s r).viewNum (GetHash Decimals [] tick) =
      s.viewNum (GetHash Decimals [] tick) := by
  have hskip : classify up s r = ExecAction.skip := by
    rcases classify_op_deploy_cases up s r tick0 htick hop with h | h
    · exact h
    · rw [h]
      unfold classifyDeploy
      cases hmax : r.Content.lookup "max" with
      | none => rfl
      | some mx =>
        dsimp only
        rw [htl, if_pos hex]
  have hstep : execStep up s r = s := by
    rw [execStep, hskip]
    rfl
  exact ⟨hstep, by rw [hstep], by rw [hstep], by rw [hstep], by rw [hstep],
    by rw [hstep]⟩

/-- A second deploy of tick abcd with a different max supply. -/
def exDeploy2Rec : OrdTransfer :=
  { ID := 9, InscriptionID := "i9", OldSatpoint := "", NewPkscript := "00cc",
    NewWallet := "addr3", SentAsFee := false, ContentType := "text/plain",
    Content := [("p", "brc-20"), ("op", "deploy"), ("tick", "abcd"),
      ("max", "9999"), ("dec", "18")] }

set_option maxRecDepth 1000000 in
/-- Witness for claim C8: after deploying tick abcd with max 1000 and
18 decimals, a second deploy with max 9999 is skipped and the stored max
supply is still 1000 times 10 to the 18. -/
theorem claim_C8_witness :
    ((exDeployedState.get (GetHash TickExists [] "abcd")).getD []).length ≠ 0 ∧
    exDeployedState.viewNum (GetHash MaxSupply [] "abcd") = 1000 * 10 ^ 18 ∧
    (execStep exUpperLimit exDeployedState exDeploy2Rec = exDeployedState ∧
      (execStep exUpperLimit exDeployedState exDeploy2Rec).viewNum
          (GetHash TickExists [] "abcd") =
        exDeployedState.viewNum (GetHash TickExists [] "abcd") ∧
      (execStep exUpperLimit exDeployedState exDeploy2Rec).viewNum
          (GetHash RemainingSupply [] "abcd") =
        exDeployedState.viewNum (GetHash RemainingSupply [] "abcd") ∧
      (execStep exUpperLimit exDeployedState exDeploy2Rec).viewNum
          (GetHash MaxSupply [] "abcd") =
        exDeployedState.viewNum (GetHash MaxSupply [] "abcd") ∧
      (execStep exUpperLimit exDeployedState exDeploy2Rec).viewNum
          (GetHash LimitPerMint [] "abcd") =
        exDeployedState.viewNum (GetHash LimitPerMint [] "abcd") ∧
      (execStep exUpperLimit exDeployedState exDeploy2Rec).viewNum
          (GetHash Decimals [] "abcd") =
        exDeployedState.viewNum (GetHash Decimals [] "abcd")) :=
  ⟨by decide, by decide,
    claim_C8_duplicate_deploy_skipped exUpperLimit exDeployedState exDeploy2Rec
      "abcd" "abcd" (by decide) (by decide) (by decide) (by decide)⟩

/-! ## Pending-log membership lemmas -/

theorem lastStaged_cons {κ : Type} [DecidableEq κ] (e : TripleElement κ)
    (t : List (TripleElement κ)) (k : κ) :
    lastStaged (e :: t) k =
      match lastStaged t k with
      | some v => some v
      | none => if e.key = k then some e.newValue else none := by
  have h : lastStaged (e :: t) k =
      t.foldl (fun acc e => if e.key = k then some e.newValue else acc)
        (if e.key = k then some e.newValue else none) := rfl
  rw [h, lastStaged_fold_init]

theorem lastStaged_eq_some_mem {κ : Type} [DecidableEq κ]
    {t : List (TripleElement κ)} {k : κ} {v : Bytes}
    (h : lastStaged t k = some v) : ∃ e ∈ t, e.key = k ∧ e.newValue = v := by
  induction t with
  | nil => simp [lastStaged] at h
  | cons e rest ih =>
    rw [lastStaged_cons] at h
    cases hrest : lastStaged rest k with
    | some w =>
      rw [hrest] at h
      have hwv : w = v := by injection h
      subst hwv
      obtain ⟨e2, he2, hk2, hv2⟩ := ih hrest
      exact ⟨e2, List.mem_cons_of_mem e he2, hk2, hv2⟩
    | none =>
      rw [hrest] at h
      by_cases hek : e.key = k
      · rw [if_pos hek] at h
        exact ⟨e, List.mem_cons_self e rest, hek, by injection h⟩
      · rw [if_neg hek] at h
        exact absurd h (by simp)

theorem lastStaged_ne_none_of_mem {κ : Type} [DecidableEq κ]
    {t : List (TripleElement κ)} {e : TripleElement κ} {k : κ}
    (he : e ∈ t) (hk : e.key = k) : lastStaged t k ≠ none := by
  induction t with
  | nil => simp at he
  | cons e2 rest ih =>
    rw [lastStaged_cons]
    rcases List.mem_cons.mp he with rfl | hmem
    · cases hrest : lastStaged rest k with
      | some w => simp
      | none => simp [hk]
    · cases hrest : lastStaged rest k with
      | some w => simp
      | none => exact absurd hrest (ih hmem)

/-! ## Guard soundness of the classifier -/

/-- An action the classifier can emit never spends an inscription whose
counters fail the single-use test. -/
def actionOk (s : HState) : ExecAction → Prop
  | .tFee i _ _ _ => isUsedOrInvalid s i = false
  | .tNormal i _ _ _ _ _ => isUsedOrInvalid s i = false
  | _ => True

theorem classifyDeploy_actionOk (up : Nat) (s : HState) (r : OrdTransfer)
    (t : String) : actionOk s (classifyDeploy up s r t) := by
  unfold classifyDeploy
  repeat' first
  | split
  | (dsimp only)
  all_goals trivial

theorem classifyMint_actionOk (up : Nat) (s : HState) (r : OrdTransfer)
    (t : String) : actionOk s (classifyMint up s r t) := by
  unfold classifyMint
  repeat' first
  | split
  | (dsimp only)
  all_goals trivial

theorem classifyTransfer_actionOk (up : Nat) (s : HState) (r : OrdTransfer)
    (t : String) : actionOk s (classifyTransfer up s r t) := by
  unfold classifyTransfer
  repeat' first
  | split
  | (dsimp only)
  all_goals simp_all [actionOk]

theorem classify_actionOk (up : Nat) (s : HState) (r : OrdTransfer) :
    actionOk s (classify up s r) := by
  unfold classify
  repeat' first
  | split
  | (dsimp only)
  all_goals first
  | trivial
  | exact classifyDeploy_actionOk up s r _
  | exact classifyMint_actionOk up s r _
  | exact classifyTransfer_actionOk up s r _

theorem isUsedOrInvalid_false_iff (s : HState) (i : String) :
    isUsedOrInvalid s i = false ↔
      s.GetValueOrZero (GetEventHash TransferInscribeCount i) = 1 ∧
      s.GetValueOrZero (GetEventHash TransferTransferCount i) = 0 := by
  simp [isUsedOrInvalid]

/-! ## Write characterization of the mutators -/

/-- Keys of the state keyspace (as opposed to the event keyspace). -/
def isStateKey : HKey → Prop
  | .state _ _ _ => True
  | .event _ _ => False

theorem Temp_deploy_mem {s : HState} {i pk ad t : String} {m d l : Nat}
    {e : TripleElement HKey}
    (he : e ∈ (deployInscribe s i pk ad t m d l).Temp) :
    e ∈ s.Temp ∨ (e.newValue.length = 32 ∧ isStateKey e.key) := by
  unfold deployInscribe at he
  dsimp only at he
  simp only [Header.insert, List.mem_append, List.mem_singleton] at he
  rcases he with ((((he | rfl) | rfl) | rfl) | rfl) | rfl
  · exact Or.inl he
  all_goals exact Or.inr ⟨pad32_length _, trivial⟩

theorem Temp_mint_mem {s : HState} {i pk ad t : String} {a : Nat}
    {e : TripleElement HKey}
    (he : e ∈ (mintInscribe s i pk ad t a).Temp) :
    e ∈ s.Temp ∨ (e.newValue.length = 32 ∧ isStateKey e.key) := by
  unfold mintInscribe at he
  dsimp only at he
  simp only [Header.insert, List.mem_append, List.mem_singleton] at he
  rcases he with ((((he | rfl) | rfl) | rfl) | rfl) | rfl
  · exact Or.inl he
  all_goals exact Or.inr ⟨pad32_length _, trivial⟩

theorem Temp_saveSource_mem {s : HState} {i : String} {w : Bytes} {p : String}
    {e : TripleElement HKey}
    (he : e ∈ (saveSourceWalletAndPkscript s i w p).Temp) :
    e ∈ s.Temp ∨ (e.newValue.length = 32 ∧
      (e.key = GetEventHash TransferInscribeSourceWallet i ∨
       e.key = GetEventHash TransferInscribeSourcePkscript1 i ∨
       e.key = GetEventHash TransferInscribeSourcePkscript2 i)) := by
  unfold saveSourceWalletAndPkscript at he
  dsimp only at he
  by_cases hodd : p.utf8ByteSize % 2 = 1
  · simp only [if_pos hodd] at he
    by_cases hsp : ((p.utf8ByteSize % 256) :: hexDecodePart (p ++ "0")).length > 32
    · simp only [if_pos hsp, Header.insert, List.mem_append, List.mem_singleton] at he
      rcases he with ((he | rfl) | rfl) | rfl
      · exact Or.inl he
      · exact Or.inr ⟨pad32_length _, Or.inl rfl⟩
      · exact Or.inr ⟨pad32_length _, Or.inr (Or.inl rfl)⟩
      · exact Or.inr ⟨pad32_length _, Or.inr (Or.inr rfl)⟩
    · simp only [if_neg hsp, Header.insert, List.mem_append, List.mem_singleton] at he
      rcases he with (he | rfl) | rfl
      · exact Or.inl he
      · exact Or.inr ⟨pad32_length _, Or.inl rfl⟩
      · exact Or.inr ⟨pad32_length _, Or.inr (Or.inl rfl)⟩
  · simp only [if_neg hodd] at he
    by_cases hsp : ((p.utf8ByteSize % 256) :: hexDecodePart p).length > 32
    · simp only [if_pos hsp, Header.insert, List.mem_append, List.mem_singleton] at he
      rcases he with ((he | rfl) | rfl) | rfl
      · exact Or.inl he
      · exact Or.inr ⟨pad32_length _, Or.inl rfl⟩
      · exact Or.inr ⟨pad32_length _, Or.inr (Or.inl rfl)⟩
      · exact Or.inr ⟨pad32_length _, Or.inr (Or.inr rfl)⟩
    · simp only [if_neg hsp, Header.insert, List.mem_append, List.mem_singleton] at he
      rcases he with (he | rfl) | rfl
      · exact Or.inl he
      · exact Or.inr ⟨pad32_length _, Or.inl rfl⟩
      · exact Or.inr ⟨pad32_length _, Or.inr (Or.inl rfl)⟩

theorem Temp_tInscribe_mem {s : HState} {i pk ad t : String} {a av : Nat}
    {e : TripleElement HKey}
    (he : e ∈ (transferInscribe s i pk ad t a av).Temp) :
    e ∈ s.Temp ∨ (e.newValue.length = 32 ∧
      (isStateKey e.key ∨
       e.key = GetEventHash TransferInscribeSourceWallet i ∨
       e.key = GetEventHash TransferInscribeSourcePkscript1 i ∨
       e.key = GetEventHash TransferInscribeSourcePkscript2 i ∨
       e.key = GetEventHash TransferInscribeCount i)) := by
  unfold transferInscribe at he
  dsimp only at he
  simp only [Header.insert, List.mem_append, List.mem_singleton] at he
  rcases he with he | rfl
  · rcases Temp_saveSource_mem he with he2 | ⟨hlen, hkey⟩
    · simp only [Header.insert, List.mem_append, List.mem_singleton] at he2
      rcases he2 with (he3 | rfl) | rfl
      · exact Or.inl he3
      · exact Or.inr ⟨pad32_length _, Or.inl trivial⟩
      · exact Or.inr ⟨pad32_length _, Or.inl trivial⟩
    · exact Or.inr ⟨hlen, Or.inr (by tauto)⟩
  · exact Or.inr ⟨pad32_length _, Or.inr (Or.inr (Or.inr (Or.inr rfl)))⟩

theorem Temp_tFee_mem {s : HState} {i t : String} {a tx : Nat}
    {e : TripleElement HKey}
    (he : e ∈ (transferTransferSpendToFee s i t a tx).Temp) :
    e ∈ s.Temp ∨ (e.newValue.length = 32 ∧
      (isStateKey e.key ∨
       (e.key = GetEventHash TransferTransferCount i ∧
        e.newValue = pad32 (convertIntToByte
          (add256 (s.GetValueOrZero (GetEventHash TransferTransferCount i)) 1))))) := by
  unfold transferTransferSpendToFee at he
  dsimp only at he
  simp only [Header.insert, List.mem_append, List.mem_singleton] at he
  rcases he with ((he | rfl) | rfl) | rfl
  · exact Or.inl he
  · exact Or.inr ⟨pad32_length _, Or.inl trivial⟩
  · exact Or.inr ⟨pad32_length _, Or.inl trivial⟩
  · exact Or.inr ⟨pad32_length _, Or.inr ⟨rfl, rfl⟩⟩

theorem Temp_tNormal_mem {s : HState} {i pk ad t : String} {a tx : Nat}
    {e : TripleElement HKey}
    (he : e ∈ (transferTransferNormal s i pk ad t a tx).Temp) :
    e ∈ s.Temp ∨ (e.newValue.length = 32 ∧
      (isStateKey e.key ∨
       (e.key = GetEventHash TransferTransferCount i ∧
        e.newValue = pad32 (convertIntToByte
          (add256 (s.GetValueOrZero (GetEventHash TransferTransferCount i)) 1))))) := by
  unfold transferTransferNormal at he
  dsimp only at he
  simp only [Header.insert, List.mem_append, List.mem_singleton] at he
  rcases he with ((((((he | rfl) | rfl) | rfl) | rfl) | rfl) | rfl) | rfl
  · exact Or.inl he
  · exact Or.inr ⟨pad32_length _, Or.inl trivial⟩
  · exact Or.inr ⟨pad32_length _, Or.inl trivial⟩
  · exact Or.inr ⟨pad32_length _, Or.inl trivial⟩
  · exact Or.inr ⟨pad32_length _, Or.inl trivial⟩
  · exact Or.inr ⟨pad32_length _, Or.inl trivial⟩
  · exact Or.inr ⟨pad32_length _, Or.inl trivial⟩
  · exact Or.inr ⟨pad32_length _, Or.inr ⟨rfl, rfl⟩⟩

/-! ## Pending-log extension and view monotonicity -/

/-- The pending log of b extends that of a. -/
def tempExt (a b : HState) : Prop := ∃ L, b.Temp = a.Temp ++ L

theorem tempExt_rfl (a : HState) : tempExt a a := ⟨[], (List.append_nil _).symm⟩

theorem tempExt_insert (a : HState) (k : HKey) (v : Bytes) :
    tempExt a (a.insert k v) := ⟨_, rfl⟩

theorem tempExt_trans {a b c : HState} (h1 : tempExt a b) (h2 : tempExt b c) :
    tempExt a c := by
  obtain ⟨L1, hL1⟩ := h1
  obtain ⟨L2, hL2⟩ := h2
  exact ⟨L1 ++ L2, by rw [hL2, hL1, List.append_assoc]⟩

theorem tempExt_saveSource (s : HState) (i : String) (w : Bytes) (p : String) :
    tempExt s (saveSourceWalletAndPkscript s i w p) := by
  unfold saveSourceWalletAndPkscript
  dsimp only
  split <;> split
  all_goals first
  | exact tempExt_trans (tempExt_trans (tempExt_insert _ _ _) (tempExt_insert _ _ _))
      (tempExt_insert _ _ _)
  | exact tempExt_trans (tempExt_insert _ _ _) (tempExt_insert _ _ _)

theorem tempExt_insert_of {a b : HState} (k : HKey) (v : Bytes)
    (h : tempExt a b) : tempExt a (b.insert k v) :=
  tempExt_trans h (tempExt_insert b k v)

theorem tempExt_perform (s : HState) (a : ExecAction) : tempExt s (perform s a) := by
  cases a with
  | skip => exact tempExt_rfl s
  | deploy i pk ad t m d l =>
    exact tempExt_insert_of _ _ (tempExt_insert_of _ _ (tempExt_insert_of _ _
      (tempExt_insert_of _ _ (tempExt_insert_of _ _ (tempExt_rfl s)))))
  | mint i pk ad t am =>
    exact tempExt_insert_of _ _ (tempExt_insert_of _ _ (tempExt_insert_of _ _
      (tempExt_insert_of _ _ (tempExt_insert_of _ _ (tempExt_rfl s)))))
  | tInscribe i pk ad t am av =>
    exact tempExt_insert_of _ _ (tempExt_trans
      (tempExt_insert_of _ _ (tempExt_insert_of _ _ (tempExt_rfl s)))
      (tempExt_saveSource _ _ _ _))
  | tFee i t am tx =>
    exact tempExt_insert_of _ _ (tempExt_insert_of _ _ (tempExt_insert_of _ _
      (tempExt_rfl s)))
  | tNormal i pk ad t am tx =>
    exact tempExt_insert_of _ _ (tempExt_insert_of _ _ (tempExt_insert_of _ _
      (tempExt_insert_of _ _ (tempExt_insert_of _ _ (tempExt_insert_of _ _
        (tempExt_insert_of _ _ (tempExt_rfl s)))))))

theorem tempExt_execStep (up : Nat) (s : HState) (r : OrdTransfer) :
    tempExt s (execStep up s r) := tempExt_perform s (classify up s r)

theorem view_ne_none_of_tempMem {s : HState} {e : TripleElement HKey} {k : HKey}
    (he : e ∈ s.Temp) (hk : e.key = k) : s.view k ≠ none := by
  unfold Header.view
  cases hls : lastStaged s.Temp k with
  | some v => simp
  | none => exact absurd hls (lastStaged_ne_none_of_mem he hk)

theorem view_ne_none_mono {a b : HState} (hT : tempExt a b) (hR : b.Root = a.Root)
    {k : HKey} (h : a.view k ≠ none) : b.view k ≠ none := by
  obtain ⟨L, hL⟩ := hT
  unfold Header.view at h ⊢
  rw [hL, lastStaged_append, hR]
  cases hLk : lastStaged L k with
  | some v => simp
  | none => exact h

theorem view_cases_of_tempExt {a b : HState} (hT : tempExt a b)
    (hR : b.Root = a.Root) (k : HKey) :
    b.view k = a.view k ∨ ∃ e ∈ b.Temp, e.key = k ∧ b.view k = some e.newValue := by
  obtain ⟨L, hL⟩ := hT
  unfold Header.view
  rw [hL, lastStaged_append, hR]
  cases hLk : lastStaged L k with
  | none => exact Or.inl rfl
  | some v =>
    right
    obtain ⟨e, heL, hek, hev⟩ := lastStaged_eq_some_mem hLk
    exact ⟨e, List.mem_append_right _ heL, hek, by rw [hev]⟩

/-! ## Committed reads are stable under the loop and rewritten by Paging -/

theorem GetValueOrZero_execStep (up : Nat) (s : HState) (r : OrdTransfer)
    (k : HKey) : (execStep up s r).GetValueOrZero k = s.GetValueOrZero k := by
  unfold Header.GetValueOrZero Header.GetUInt256 Header.get
  rw [Root_execStep]

theorem get_execStep (up : Nat) (s : HState) (r : OrdTransfer) (k : HKey) :
    (execStep up s r).get k = s.get k := by
  unfold Header.get
  rw [Root_execStep]

theorem get_Paging {κ : Type} [DecidableEq κ] (h : Header κ)
    (g : Nat → Except String String) (q : Bool) (k : κ) :
    ((h.Paging g q).1).get k = h.view k := Paging_Root_view h g q k

theorem GetValueOrZero_Paging {κ : Type} [DecidableEq κ] (h : Header κ)
    (g : Nat → Except String String) (q : Bool) (k : κ) :
    ((h.Paging g q).1).GetValueOrZero k = h.viewNum k := by
  unfold Header.GetValueOrZero Header.GetUInt256 Header.viewNum
  rw [show ((h.Paging g q).1).get k = h.view k from get_Paging h g q k]

theorem viewNum_eq_of_view_eq {a b : HState} {k k' : HKey}
    (h : a.view k = b.view k') : a.viewNum k = b.viewNum k' := by
  unfold Header.viewNum
  rw [h]

/-! ## Reachable states -/

/-- States reachable from the fresh store by records satisfying P, with
paging allowed at any point (an over-approximation of the real block
protocol, sound for invariants). -/
inductive ReachableP (P : OrdTransfer → Prop) (up : Nat) : HState → Prop where
  | init : ReachableP P up initialHState
  | step {s : HState} {r : OrdTransfer} (hs : ReachableP P up s) (hr : P r) :
      ReachableP P up (execStep up s r)
  | page {s : HState} (g : Nat → Except String String) (q : Bool)
      (hs : ReachableP P up s) : ReachableP P up ((s.Paging g q).1)

/-- All slots ever committed or staged are 32 bytes wide. -/
def wf32 (s : HState) : Prop :=
  (∀ k bs, s.Root k = some bs → bs.length = 32) ∧
  (∀ e ∈ s.Temp, e.newValue.length = 32)

theorem wf32_execStep (up : Nat) (s : HState) (r : OrdTransfer) (hw : wf32 s) :
    wf32 (execStep up s r) := by
  constructor
  · intro k bs hbs
    rw [Root_execStep] at hbs
    exact hw.1 k bs hbs
  · intro e he
    rw [execStep] at he
    cases hc : classify up s r <;> rw [hc] at he
    case skip => exact hw.2 e he
    case deploy i pk ad t m d l =>
      replace he : e ∈ (deployInscribe s i pk ad t m d l).Temp := he
      rcases Temp_deploy_mem he with h | ⟨hl, _⟩
      · exact hw.2 e h
      · exact hl
    case mint i pk ad t am =>
      replace he : e ∈ (mintInscribe s i pk ad t am).Temp := he
      rcases Temp_mint_mem he with h | ⟨hl, _⟩
      · exact hw.2 e h
      · exact hl
    case tInscribe i pk ad t am av =>
      replace he : e ∈ (transferInscribe s i pk ad t am av).Temp := he
      rcases Temp_tInscribe_mem he with h | ⟨hl, _⟩
      · exact hw.2 e h
      · exact hl
    case tFee i t am tx =>
      replace he : e ∈ (transferTransferSpendToFee s i t am tx).Temp := he
      rcases Temp_tFee_mem he with h | ⟨hl, _⟩
      · exact hw.2 e h
      · exact hl
    case tNormal i pk ad t am tx =>
      replace he : e ∈ (transferTransferNormal s i pk ad t am tx).Temp := he
      rcases Temp_tNormal_mem he with h | ⟨hl, _⟩
      · exact hw.2 e h
      · exact hl

theorem wf32_Paging (s : HState) (g : Nat → Except String String) (q : Bool)
    (hw : wf32 s) : wf32 ((s.Paging g q).1) := by
  constructor
  · intro k bs hbs
    rw [show ((s.Paging g q).1).Root k = s.view k from Paging_Root_view s g q k] at hbs
    unfold Header.view at hbs
    cases hls : lastStaged s.Temp k with
    | some v =>
      rw [hls] at hbs
      obtain ⟨e, he, _, hev⟩ := lastStaged_eq_some_mem hls
      have hlen := hw.2 e he
      injection hbs with hbv
      rw [← hbv, ← hev]
      exact hlen
    | none =>
      rw [hls] at hbs
      exact hw.1 k bs hbs
  · intro e he
    rw [Paging_Temp_nil] at he
    simp at he

theorem wf32_reachable {P : OrdTransfer → Prop} {up : Nat} {s : HState}
    (h : ReachableP P up s) : wf32 s := by
  induction h with
  | init =>
    constructor
    · intro k bs hbs
      exact absurd hbs (by simp [initialHState])
    · intro e he
      exact absurd he (by simp [initialHState])
  | step hs hr ih => exact wf32_execStep _ _ _ ih
  | page g q hs ih => exact wf32_Paging _ g q ih

/-! ## Claim C2 -/

/-- The transfer-transfer counter invariant: every committed counter and
every staged counter write is at most one. -/
def ttcBound (s : HState) : Prop :=
  (∀ i, s.GetValueOrZero (GetEventHash TransferTransferCount i) ≤ 1) ∧
  (∀ e ∈ s.Temp, ∀ i, e.key = GetEventHash TransferTransferCount i →
    bytesToNat e.newValue ≤ 1)

theorem viewNum_ttc_le {s : HState} (hb : ttcBound s) (i : String) :
    s.viewNum (GetEventHash TransferTransferCount i) ≤ 1 := by
  unfold Header.viewNum Header.view
  cases hls : lastStaged s.Temp (GetEventHash TransferTransferCount i) with
  | some v =>
    obtain ⟨e, he, hek, hev⟩ := lastStaged_eq_some_mem hls
    have := hb.2 e he i hek
    rw [← hev]
    exact this
  | none => exact hb.1 i

theorem ttc_write_value (s : HState) (i : String)
    (h0 : s.GetValueOrZero (GetEventHash TransferTransferCount i) = 0) :
    bytesToNat (pad32 (convertIntToByte
      (add256 (s.GetValueOrZero (GetEventHash TransferTransferCount i)) 1))) = 1 := by
  rw [h0, bytesToNat_pad32_convert]
  norm_num [add256, W256]

theorem ttcBound_execStep (up : Nat) (s : HState) (r : OrdTransfer)
    (hb : ttcBound s) : ttcBound (execStep up s r) := by
  have hok := classify_actionOk up s r
  constructor
  · intro i
    rw [GetValueOrZero_execStep]
    exact hb.1 i
  · intro e he i hek
    rw [execStep] at he
    cases hc : classify up s r <;> rw [hc] at he hok
    case skip => exact hb.2 e he i hek
    case deploy i0 pk ad t m d l =>
      replace he : e ∈ (deployInscribe s i0 pk ad t m d l).Temp := he
      rcases Temp_deploy_mem he with h | ⟨_, hsk⟩
      · exact hb.2 e h i hek
      · rw [hek] at hsk
        exact absurd hsk (by simp [GetEventHash, isStateKey])
    case mint i0 pk ad t am =>
      replace he : e ∈ (mintInscribe s i0 pk ad t am).Temp := he
      rcases Temp_mint_mem he with h | ⟨_, hsk⟩
      · exact hb.2 e h i hek
      · rw [hek] at hsk
        exact absurd hsk (by simp [GetEventHash, isStateKey])
    case tInscribe i0 pk ad t am av =>
      replace he : e ∈ (transferInscribe s i0 pk ad t am av).Temp := he
      rcases Temp_tInscribe_mem he with h | ⟨_, hsk⟩
      · exact hb.2 e h i hek
      · rw [hek] at hsk
        rcases hsk with h1 | h1 | h1 | h1 | h1
        · exact absurd h1 (by simp [GetEventHash, isStateKey])
        all_goals
          exact absurd h1 (by
            simp [GetEventHash, TransferTransferCount, TransferInscribeSourceWallet,
              TransferInscribeSourcePkscript1, TransferInscribeSourcePkscript2,
              TransferInscribeCount])
    case tFee i0 t am tx =>
      replace he : e ∈ (transferTransferSpendToFee s i0 t am tx).Temp := he
      rcases Temp_tFee_mem he with h | ⟨_, hsk | ⟨hkey, hval⟩⟩
      · exact hb.2 e h i hek
      · rw [hek] at hsk
        exact absurd hsk (by simp [GetEventHash, isStateKey])
      · have hguard : isUsedOrInvalid s i0 = false := hok
        have h0 := ((isUsedOrInvalid_false_iff s i0).mp hguard).2
        rw [hval, ttc_write_value s i0 h0]
    case tNormal i0 pk ad t am tx =>
      replace he : e ∈ (transferTransferNormal s i0 pk ad t am tx).Temp := he
      rcases Temp_tNormal_mem he with h | ⟨_, hsk | ⟨hkey, hval⟩⟩
      · exact hb.2 e h i hek
      · rw [hek] at hsk
        exact absurd hsk (by simp [GetEventHash, isStateKey])
      · have hguard : isUsedOrInvalid s i0 = false := hok
        have h0 := ((isUsedOrInvalid_false_iff s i0).mp hguard).2
        rw [hval, ttc_write_value s i0 h0]

theorem ttcBound_Paging (s : HState) (g : Nat → Except String String) (q : Bool)
    (hb : ttcBound s) : ttcBound ((s.Paging g q).1) := by
  constructor
  · intro i
    rw [GetValueOrZero_Paging]
    exact viewNum_ttc_le hb i
  · intro e he
    rw [Paging_Temp_nil] at he
    simp at he

theorem ttcBound_reachable {P : OrdTransfer → Prop} {up : Nat} {s : HState}
    (h : ReachableP P up s) : ttcBound s := by
  induction h with
  | init =>
    constructor
    · intro i
      simp [initialHState, Header.GetValueOrZero, Header.GetUInt256, Header.get]
    · intro e he
      exact absurd he (by simp [initialHState])
  | step hs hr ih => exact ttcBound_execStep _ _ _ ih
  | page g q hs ih => exact ttcBound_Paging _ g q ih

theorem isUsed_true_of_ttc {s : HState} {i : String}
    (h : s.GetValueOrZero (GetEventHash TransferTransferCount i) ≠ 0) :
    isUsedOrInvalid s i = true := by
  simp [isUsedOrInvalid, h]

theorem isUsed_true_of_tic {s : HState} {i : String}
    (h : s.GetValueOrZero (GetEventHash TransferInscribeCount i) = 0) :
    isUsedOrInvalid s i = true := by
  simp [isUsedOrInvalid, h]

set_option maxHeartbeats 1000000 in
/-- A spend-phase transfer record for an inscription failing the single-use
test is skipped by the transfer guard chain. -/
theorem classifyTransfer_spend_skip (up : Nat) (s : HState) (r : OrdTransfer)
    (t : String) (hsat : r.OldSatpoint ≠ "")
    (hused : isUsedOrInvalid s r.InscriptionID = true) :
    classifyTransfer up s r t = ExecAction.skip := by
  unfold classifyTransfer
  repeat' first
  | split
  | (dsimp only)
  all_goals simp_all

/-- With op equal to transfer, the loop body either skips the record or runs
the transfer guard chain. -/
theorem classify_op_transfer_cases (up : Nat) (s : HState) (r : OrdTransfer)
    (tick0 : String)
    (htick : r.Content.lookup "tick" = some tick0)
    (hop : r.Content.lookup "op" = some "transfer") :
    classify up s r = ExecAction.skip ∨
      classify up s r = classifyTransfer up s r (toLowerStr tick0) := by
  unfold classify
  rw [htick, hop]
  dsimp only
  split
  · exact Or.inl rfl
  split
  · exact Or.inl rfl
  split
  · exact Or.inl rfl
  split
  · exact Or.inl rfl
  rw [if_neg (by decide), if_neg (by decide), if_pos rfl]
  exact Or.inr rfl

/-- When the tick field is missing, the loop body skips the record. -/
theorem classify_no_tick_skip (up : Nat) (s : HState) (r : OrdTransfer)
    (htk : r.Content.lookup "tick" = none) :
    classify up s r = ExecAction.skip := by
  unfold classify
  rw [htk]
  dsimp only
  split
  · rfl
  split
  · rfl
  split
  · rfl
  rfl

/-- A spend-phase transfer record for an inscription failing the single-use
test is skipped by the loop body. -/
theorem classify_spend_skip (up : Nat) (s : HState) (r : OrdTransfer)
    (hop : r.Content.lookup "op" = some "transfer")
    (hsat : r.OldSatpoint ≠ "")
    (hused : isUsedOrInvalid s r.InscriptionID = true) :
    classify up s r = ExecAction.skip := by
  cases htk : r.Content.lookup "tick" with
  | none => exact classify_no_tick_skip up s r htk
  | some tick0 =>
    rcases classify_op_transfer_cases up s r tick0 htk hop with h | h
    · exact h
    · rw [h]
      exact classifyTransfer_spend_skip up s r _ hsat hused

/-- The half of the single-spend property the code does deliver: over every
sequence of Exec batches with Paging between blocks (any reachable state),
no inscription id ever reaches a transfer-transfer count above one,
committed or staged; and a spend attempt for an inscription whose committed
transfer-transfer count is non-zero is skipped whole, leaving the state
unchanged. The committed qualification is essential: the guard reads only
committed state, so it does not cover a second spend staged earlier in the
same batch (the counterexample below). -/
theorem ttc_single_spend_committed (up : Nat) (s : HState)
    (hreach : ReachableP (fun _ => True) up s) :
    (∀ i, s.viewNum (GetEventHash TransferTransferCount i) ≤ 1) ∧
    (∀ r : OrdTransfer, r.Content.lookup "op" = some "transfer" →
      r.OldSatpoint ≠ "" →
      s.GetValueOrZero (GetEventHash TransferTransferCount r.InscriptionID) ≠ 0 →
      execStep up s r = s) := by
  have hb := ttcBound_reachable hreach
  constructor
  · exact fun i => viewNum_ttc_le hb i
  · intro r hop hsat httc
    rw [execStep, classify_spend_skip up s r hop hsat (isUsed_true_of_ttc httc)]
    rfl

/-- A second spend record for the same inscription, moving it to a different
destination, pkscript 00cc / wallet addr3. -/
def exSpendRec2 (i : String) : OrdTransfer :=
  { ID := 5, InscriptionID := i, OldSatpoint := "y:0:0", NewPkscript := "00cc",
    NewWallet := "addr3", SentAsFee := false, ContentType := "text/plain",
    Content := [("p", "brc-20"), ("op", "transfer"), ("tick", "abcd"), ("amt", "100")] }

/-- State after block 3 of the double-spend scenario: a single transfer
inscription i2 reserving the minted 100, paged. -/
def exInscribedOnceState : HState :=
  ((Exec exUpperLimit exMintedState [exInscribeRec "i2"]).Paging getterOk true).1

/-- State after block 4 of the double-spend scenario: one batch holding two
spend records for the same inscription i2, to 00bb/addr2 and to 00cc/addr3,
paged. -/
def exDoubleSpentState : HState :=
  ((Exec exUpperLimit exInscribedOnceState
    [exSpendRec "i2", exSpendRec2 "i2"]).Paging getterOk true).1

set_option maxRecDepth 1000000 in
/-- Claim C2 evidence: after the first record of the batch spends i2, the
staged transfer-transfer count of i2 is already one, yet the committed count
the isUsedOrInvalid guard reads is still zero, so the second spend of the
same inscription in the same batch is dispatched as a normal transfer to
00cc instead of being a no-op. After paging, both destinations hold the full
100 times 10 to the 18 while the source was debited only once (100 minted,
200 held), and the stored counter itself still reads one: the count bound of
the claim holds, but its no-op half is false. -/
theorem claim_C2_double_spend :
    (execStep exUpperLimit exInscribedOnceState (exSpendRec "i2")).viewNum
        (GetEventHash TransferTransferCount "i2") = 1 ∧
    (execStep exUpperLimit exInscribedOnceState (exSpendRec "i2")).GetValueOrZero
        (GetEventHash TransferTransferCount "i2") = 0 ∧
    classify exUpperLimit
        (execStep exUpperLimit exInscribedOnceState (exSpendRec "i2"))
        (exSpendRec2 "i2") =
      ExecAction.tNormal "i2" "00cc" "addr3" "abcd" (100 * 10 ^ 18) 5 ∧
    exDoubleSpentState.GetValueOrZero
        (GetHash OverallBalancePkscript (strBytes "00bb") "abcd") =
      100 * 10 ^ 18 ∧
    exDoubleSpentState.GetValueOrZero
        (GetHash OverallBalancePkscript (strBytes "00cc") "abcd") =
      100 * 10 ^ 18 ∧
    exDoubleSpentState.GetValueOrZero
        (GetHash OverallBalancePkscript (strBytes "00aa") "abcd") = 0 ∧
    exDoubleSpentState.GetValueOrZero
        (GetEventHash TransferTransferCount "i2") = 1 := by
  refine ⟨by decide, by decide, by decide, by decide, by decide, by decide,
    by decide⟩

/-! ## Claim C10 -/

theorem view_pk1_saveSource (s : HState) (i : String) (w : Bytes) (p : String) :
    (saveSourceWalletAndPkscript s i w p).view
      (GetEventHash TransferInscribeSourcePkscript1 i) ≠ none := by
  unfold saveSourceWalletAndPkscript
  dsimp only
  by_cases hodd : p.utf8ByteSize % 2 = 1
  · simp only [if_pos hodd]
    by_cases hsp : ((p.utf8ByteSize % 256) :: hexDecodePart (p ++ "0")).length > 32
    · simp only [if_pos hsp]
      rw [view_insert, if_neg (by simp [GetEventHash, TransferInscribeSourcePkscript1,
        TransferInscribeSourcePkscript2]), view_insert, if_pos rfl]
      simp
    · simp only [if_neg hsp]
      rw [view_insert, if_pos rfl]
      simp
  · simp only [if_neg hodd]
    by_cases hsp : ((p.utf8ByteSize % 256) :: hexDecodePart p).length > 32
    · simp only [if_pos hsp]
      rw [view_insert, if_neg (by simp [GetEventHash, TransferInscribeSourcePkscript1,
        TransferInscribeSourcePkscript2]), view_insert, if_pos rfl]
      simp
    · simp only [if_neg hsp]
      rw [view_insert, if_pos rfl]
      simp

theorem view_pk1_tInscribe (s : HState) (i pk ad t : String) (a av : Nat) :
    (transferInscribe s i pk ad t a av).view
      (GetEventHash TransferInscribeSourcePkscript1 i) ≠ none := by
  unfold transferInscribe
  dsimp only
  rw [view_insert, if_neg (by simp [GetEventHash, TransferInscribeSourcePkscript1,
    TransferInscribeCount])]
  exact view_pk1_saveSource _ _ _ _

/-- The source-data invariant: whenever the committed transfer-inscribe
counter of an inscription is non-zero its first source-pkscript slot is
committed, and whenever a transfer-inscribe counter write is staged the
first source-pkscript slot is staged or committed. -/
def sourcePresent (s : HState) : Prop :=
  (∀ i, s.GetValueOrZero (GetEventHash TransferInscribeCount i) ≠ 0 →
    s.get (GetEventHash TransferInscribeSourcePkscript1 i) ≠ none) ∧
  (∀ i, (∃ e ∈ s.Temp, e.key = GetEventHash TransferInscribeCount i) →
    s.view (GetEventHash TransferInscribeSourcePkscript1 i) ≠ none)

theorem view_pk1_of_sourcePresent {s : HState} (hs : sourcePresent s) (i : String)
    (h : s.viewNum (GetEventHash TransferInscribeCount i) ≠ 0) :
    s.view (GetEventHash TransferInscribeSourcePkscript1 i) ≠ none := by
  unfold Header.viewNum Header.view at h
  cases hls : lastStaged s.Temp (GetEventHash TransferInscribeCount i) with
  | some v =>
    obtain ⟨e, he, hek, _⟩ := lastStaged_eq_some_mem hls
    exact hs.2 i ⟨e, he, hek⟩
  | none =>
    rw [hls] at h
    have hcom : s.GetValueOrZero (GetEventHash TransferInscribeCount i) ≠ 0 := h
    have hroot := hs.1 i hcom
    unfold Header.view
    cases hls2 : lastStaged s.Temp
        (GetEventHash TransferInscribeSourcePkscript1 i) with
    | some v => simp
    | none => exact hroot

theorem sourcePresent_execStep (up : Nat) (s : HState) (r : OrdTransfer)
    (hs : sourcePresent s) : sourcePresent (execStep up s r) := by
  have hT := tempExt_execStep up s r
  have hR := Root_execStep up s r
  constructor
  · intro i h
    rw [GetValueOrZero_execStep] at h
    rw [get_execStep]
    exact hs.1 i h
  · rintro i ⟨e, he, hek⟩
    rw [execStep] at he
    cases hc : classify up s r <;> rw [hc] at he
    case skip =>
      exact view_ne_none_mono hT hR (hs.2 i ⟨e, he, hek⟩)
    case deploy i0 pk ad t m d l =>
      replace he : e ∈ (deployInscribe s i0 pk ad t m d l).Temp := he
      rcases Temp_deploy_mem he with h | ⟨_, hsk⟩
      · exact view_ne_none_mono hT hR (hs.2 i ⟨e, h, hek⟩)
      · rw [hek] at hsk
        exact absurd hsk (by simp [GetEventHash, isStateKey])
    case mint i0 pk ad t am =>
      replace he : e ∈ (mintInscribe s i0 pk ad t am).Temp := he
      rcases Temp_mint_mem he with h | ⟨_, hsk⟩
      · exact view_ne_none_mono hT hR (hs.2 i ⟨e, h, hek⟩)
      · rw [hek] at hsk
        exact absurd hsk (by simp [GetEventHash, isStateKey])
    case tInscribe i0 pk ad t am av =>
      replace he : e ∈ (transferInscribe s i0 pk ad t am av).Temp := he
      rcases Temp_tInscribe_mem he with h | ⟨_, hsk⟩
      · exact view_ne_none_mono hT hR (hs.2 i ⟨e, h, hek⟩)
      · rw [hek] at hsk
        rcases hsk with h1 | h1 | h1 | h1 | h1
        · exact absurd h1 (by simp [GetEventHash, isStateKey])
        · exact absurd h1 (by simp [GetEventHash, TransferInscribeCount,
            TransferInscribeSourceWallet])
        · exact absurd h1 (by simp [GetEventHash, TransferInscribeCount,
            TransferInscribeSourcePkscript1])
        · exact absurd h1 (by simp [GetEventHash, TransferInscribeCount,
            TransferInscribeSourcePkscript2])
        · have hii : i = i0 := by
            have := h1
            simp [GetEventHash] at this
            exact this
          rw [execStep, hc]
          show (transferInscribe s i0 pk ad t am av).view
            (GetEventHash TransferInscribeSourcePkscript1 i) ≠ none
          rw [hii]
          exact view_pk1_tInscribe s i0 pk ad t am av
    case tFee i0 t am tx =>
      replace he : e ∈ (transferTransferSpendToFee s i0 t am tx).Temp := he
      rcases Temp_tFee_mem he with h | ⟨_, hsk | ⟨hkey, _⟩⟩
      · exact view_ne_none_mono hT hR (hs.2 i ⟨e, h, hek⟩)
      · rw [hek] at hsk
        exact absurd hsk (by simp [GetEventHash, isStateKey])
      · rw [hek] at hkey
        exact absurd hkey (by simp [GetEventHash, TransferInscribeCount,
          TransferTransferCount])
    case tNormal i0 pk ad t am tx =>
      replace he : e ∈ (transferTransferNormal s i0 pk ad t am tx).Temp := he
      rcases Temp_tNormal_mem he with h | ⟨_, hsk | ⟨hkey, _⟩⟩
      · exact view_ne_none_mono hT hR (hs.2 i ⟨e, h, hek⟩)
      · rw [hek] at hsk
        exact absurd hsk (by simp [GetEventHash, isStateKey])
      · rw [hek] at hkey
        exact absurd hkey (by simp [GetEventHash, TransferInscribeCount,
          TransferTransferCount])

theorem sourcePresent_Paging (s : HState) (g : Nat → Except String String)
    (q : Bool) (hs : sourcePresent s) : sourcePresent ((s.Paging g q).1) := by
  constructor
  · intro i h
    rw [GetValueOrZero_Paging] at h
    rw [get_Paging]
    exact view_pk1_of_sourcePresent hs i h
  · rintro i ⟨e, he, _⟩
    rw [Paging_Temp_nil] at he
    simp at he

theorem sourcePresent_reachable {P : OrdTransfer → Prop} {up : Nat} {s : HState}
    (h : ReachableP P up s) : sourcePresent s := by
  induction h with
  | init =>
    constructor
    · intro i hi
      exfalso
      apply hi
      simp [initialHState, Header.GetValueOrZero, Header.GetUInt256, Header.get]
    · rintro i ⟨e, he, _⟩
      exact absurd he (by simp [initialHState])
  | step hs hr ih => exact sourcePresent_execStep _ _ _ ih
  | page g q hs ih => exact sourcePresent_Paging _ g q ih

/-- Claim C10: in the spend phase, a transfer record whose inscription id has
a zero committed transfer-inscribe counter (never transfer-inscribed in a
previously paged block) is skipped by the isUsedOrInvalid guard and changes
nothing; and whenever the loop body dispatches to transferTransferSpendToFee
or transferTransferNormal, the source event buffer of that inscription id is
non-empty in committed state, so getSourceWalletAndPkscript never indexes
into an empty buffer. -/
theorem claim_C10_source_safety (up : Nat) (s : HState)
    (hreach : ReachableP (fun _ => True) up s) :
    (∀ r : OrdTransfer, r.Content.lookup "op" = some "transfer" →
      r.OldSatpoint ≠ "" →
      s.GetValueOrZero (GetEventHash TransferInscribeCount r.InscriptionID) = 0 →
      execStep up s r = s) ∧
    (∀ (r : OrdTransfer) (i t : String) (a tx : Nat),
      classify up s r = ExecAction.tFee i t a tx → sourceBuffer s i ≠ []) ∧
    (∀ (r : OrdTransfer) (i pk ad t : String) (a tx : Nat),
      classify up s r = ExecAction.tNormal i pk ad t a tx →
      sourceBuffer s i ≠ []) := by
  have hsp := sourcePresent_reachable hreach
  have hw := wf32_reachable hreach
  have hbuf : ∀ i : String, isUsedOrInvalid s i = false → sourceBuffer s i ≠ [] := by
    intro i hguard
    have htic := ((isUsedOrInvalid_false_iff s i).mp hguard).1
    have h1 : s.get (GetEventHash TransferInscribeSourcePkscript1 i) ≠ none :=
      hsp.1 i (by rw [htic]; norm_num)
    cases hget : s.get (GetEventHash TransferInscribeSourcePkscript1 i) with
    | none => exact absurd hget h1
    | some bs =>
      have hlen : bs.length = 32 := hw.1 _ bs hget
      unfold sourceBuffer
      rw [hget]
      intro hnil
      rw [List.append_eq_nil] at hnil
      have hbs : bs = [] := hnil.1
      rw [hbs] at hlen
      exact absurd hlen (by norm_num)
  refine ⟨?_, ?_, ?_⟩
  · intro r hop hsat htic
    rw [execStep, classify_spend_skip up s r hop hsat (isUsed_true_of_tic htic)]
    rfl
  · intro r i t a tx hc
    have hok := classify_actionOk up s r
    rw [hc] at hok
    exact hbuf i hok
  · intro r i pk ad t a tx hc
    have hok := classify_actionOk up s r
    rw [hc] at hok
    exact hbuf i hok

/-- Witness for claim C10 at the initial state. -/
theorem claim_C10_witness :
    (∀ r : OrdTransfer, r.Content.lookup "op" = some "transfer" →
      r.OldSatpoint ≠ "" →
      initialHState.GetValueOrZero
        (GetEventHash TransferInscribeCount r.InscriptionID) = 0 →
      execStep exUpperLimit initialHState r = initialHState) ∧
    (∀ (r : OrdTransfer) (i t : String) (a tx : Nat),
      classify exUpperLimit initialHState r = ExecAction.tFee i t a tx →
      sourceBuffer initialHState i ≠ []) ∧
    (∀ (r : OrdTransfer) (i pk ad t : String) (a tx : Nat),
      classify exUpperLimit initialHState r = ExecAction.tNormal i pk ad t a tx →
      sourceBuffer initialHState i ≠ []) :=
  claim_C10_source_safety exUpperLimit initialHState ReachableP.init

/-! ## Claim C7: hex round trip machinery -/

/-- The output alphabet of hex.EncodeToString. -/
def lowerHexDigits : List Char :=
  ['0', '1', '2', '3', '4', '5', '6', '7'] ++ ['8', '9', 'a', 'b', 'c', 'd', 'e', 'f']

/-- A lowercase hex digit character. -/
def isLowerHexDigit (c : Char) : Prop := c ∈ lowerHexDigits

theorem hexVal_lower {c : Char} (h : isLowerHexDigit c) :
    hexVal c = some ((hexVal c).getD 0) ∧ (hexVal c).getD 0 < 16 ∧
      hexChar ((hexVal c).getD 0) = c := by
  unfold isLowerHexDigit lowerHexDigits at h
  simp only [List.mem_append, List.mem_cons, List.not_mem_nil, or_false] at h
  rcases h with (rfl | rfl | rfl | rfl | rfl | rfl | rfl | rfl) |
    (rfl | rfl | rfl | rfl | rfl | rfl | rfl | rfl) <;>
    exact ⟨by decide, by decide, by decide⟩

theorem hexChar_pair (v1 v2 : Nat) (h1 : v1 < 16) (h2 : v2 < 16) :
    (16 * v1 + v2) / 16 = v1 ∧ (16 * v1 + v2) % 16 = v2 := by omega

theorem hexEncodeChars_append (xs ys : Bytes) :
    hexEncodeChars (xs ++ ys) = hexEncodeChars xs ++ hexEncodeChars ys := by
  induction xs with
  | nil => rfl
  | cons b bs ih => simp [hexEncodeChars, ih]

theorem hexEncodeChars_length (bs : Bytes) :
    (hexEncodeChars bs).length = 2 * bs.length := by
  induction bs with
  | nil => rfl
  | cons b rest ih => simp [hexEncodeChars, ih]; ring

/-- Decoding an even-length lowercase hex character sequence succeeds, yields
half as many bytes, and re-encodes to the original sequence. -/
theorem hexDecodeCore_roundtrip :
    ∀ (n : Nat) (cs : List Char), cs.length ≤ n →
      (∀ c ∈ cs, isLowerHexDigit c) → cs.length % 2 = 0 →
      (hexDecodeCore cs).1.length = cs.length / 2 ∧
        hexEncodeChars (hexDecodeCore cs).1 = cs := by
  intro n
  induction n with
  | zero =>
    intro cs hn _ _
    have : cs = [] := List.eq_nil_of_length_eq_zero (Nat.le_zero.mp hn)
    subst this
    exact ⟨rfl, rfl⟩
  | succ n ih =>
    intro cs hn hhex heven
    match cs with
    | [] => exact ⟨rfl, rfl⟩
    | [c] => simp at heven
    | c1 :: c2 :: rest =>
      have h1 := hexVal_lower (hhex c1 (by simp))
      have h2 := hexVal_lower (hhex c2 (by simp))
      have hrest : rest.length ≤ n := by
        simp at hn
        omega
      have hhexr : ∀ c ∈ rest, isLowerHexDigit c := fun c hc =>
        hhex c (by simp [hc])
      have hevenr : rest.length % 2 = 0 := by
        simp at heven ⊢
        omega
      obtain ⟨ihlen, ihenc⟩ := ih rest hrest hhexr hevenr
      have hcore : hexDecodeCore (c1 :: c2 :: rest) =
          ((16 * (hexVal c1).getD 0 + (hexVal c2).getD 0) :: (hexDecodeCore rest).1,
            (hexDecodeCore rest).2) := by
        show (match hexVal c1, hexVal c2 with
          | some v1, some v2 =>
            ((16 * v1 + v2) :: (hexDecodeCore rest).1, (hexDecodeCore rest).2)
          | _, _ => ([], false)) = _
        rw [h1.1, h2.1]
        simp
      rw [hcore]
      constructor
      · simp [ihlen]
        omega
      · obtain ⟨hdiv, hmod⟩ := hexChar_pair _ _ h1.2.1 h2.2.1
        simp only [hexEncodeChars, hdiv, hmod, h1.2.2, h2.2.2, ihenc]

theorem utf8ByteSize_go_hex (cs : List Char) (h : ∀ c ∈ cs, isLowerHexDigit c) :
    String.utf8ByteSize.go cs = cs.length := by
  induction cs with
  | nil => rfl
  | cons c rest ih =>
    have hc : Char.utf8Size c = 1 := by
      have := h c (by simp)
      unfold isLowerHexDigit lowerHexDigits at this
      fin_cases this <;> decide
    show String.utf8ByteSize.go rest + Char.utf8Size c = rest.length + 1
    rw [hc, ih (fun c2 hc2 => h c2 (by simp [hc2]))]

theorem utf8ByteSize_hex (p : String) (h : ∀ c ∈ p.data, isLowerHexDigit c) :
    p.utf8ByteSize = p.data.length := by
  show String.utf8ByteSize.go p.data = p.data.length
  exact utf8ByteSize_go_hex p.data h

/-! ## Claim C7: view characterization of the mutators -/

theorem view_deployInscribe (s : HState) (i pk ad t : String) (m d l : Nat)
    (k : HKey) :
    (deployInscribe s i pk ad t m d l).view k =
      if k = GetHash Decimals [] t then some (pad32 (convertIntToByte d))
      else if k = GetHash LimitPerMint [] t then some (pad32 (convertIntToByte l))
      else if k = GetHash MaxSupply [] t then some (pad32 (convertIntToByte m))
      else if k = GetHash RemainingSupply [] t then some (pad32 (convertIntToByte m))
      else if k = GetHash TickExists [] t then some (pad32 (convertIntToByte 0))
      else s.view k := by
  unfold deployInscribe
  dsimp only
  rw [view_insert, view_insert, view_insert, view_insert, view_insert]
  rfl

theorem view_mintInscribe (s : HState) (i pk ad t : String) (a : Nat) (k : HKey) :
    (mintInscribe s i pk ad t a).view k =
      if k = GetHash RemainingSupply [] t then
        some (pad32 (convertIntToByte (sub256
          (convertByteToInt ((s.get (GetHash RemainingSupply [] t)).getD [])) a)))
      else if k = GetHash OverallBalance (decodeBitcoinAddress ad) t then
        some (pad32 (convertIntToByte (add256
          (s.GetValueOrZero (GetHash OverallBalancePkscript (strBytes pk) t)) a)))
      else if k = GetHash AvailableBalance (decodeBitcoinAddress ad) t then
        some (pad32 (convertIntToByte (add256
          (s.GetValueOrZero (GetHash AvailableBalancePkscript (strBytes pk) t)) a)))
      else if k = GetHash OverallBalancePkscript (strBytes pk) t then
        some (pad32 (convertIntToByte (add256
          (s.GetValueOrZero (GetHash OverallBalancePkscript (strBytes pk) t)) a)))
      else if k = GetHash AvailableBalancePkscript (strBytes pk) t then
        some (pad32 (convertIntToByte (add256
          (s.GetValueOrZero (GetHash AvailableBalancePkscript (strBytes pk) t)) a)))
      else s.view k := by
  unfold mintInscribe
  dsimp only
  rw [view_insert, view_insert, view_insert, view_insert, view_insert]
  rfl

theorem view_tFee (s : HState) (i t : String) (a tx : Nat) (k : HKey) :
    (transferTransferSpendToFee s i t a tx).view k =
      if k = GetEventHash TransferTransferCount i then
        some (pad32 (convertIntToByte (add256
          (s.GetValueOrZero (GetEventHash TransferTransferCount i)) 1)))
      else if k = GetHash AvailableBalancePkscript
          (strBytes (getSourceWalletAndPkscript s i).2) t then
        some (pad32 (convertIntToByte (add256
          (s.GetValueOrZero
            (GetHash AvailableBalance (getSourceWalletAndPkscript s i).1 t)) a)))
      else if k = GetHash AvailableBalance (getSourceWalletAndPkscript s i).1 t then
        some (pad32 (convertIntToByte (add256
          (s.GetValueOrZero
            (GetHash AvailableBalance (getSourceWalletAndPkscript s i).1 t)) a)))
      else s.view k := by
  unfold transferTransferSpendToFee
  dsimp only
  rw [view_insert, view_insert, view_insert]
  rfl

theorem view_tNormal (s : HState) (i pk ad t : String) (a tx : Nat) (k : HKey) :
    (transferTransferNormal s i pk ad t a tx).view k =
      if k = GetEventHash TransferTransferCount i then
        some (pad32 (convertIntToByte (add256
          (s.GetValueOrZero (GetEventHash TransferTransferCount i)) 1)))
      else if k = GetHash OverallBalancePkscript (strBytes pk) t then
        some (pad32 (convertIntToByte (add256
          (s.GetValueOrZero
            (GetHash OverallBalance (decodeBitcoinAddress ad) t)) a)))
      else if k = GetHash AvailableBalancePkscript (strBytes pk) t then
        some (pad32 (convertIntToByte (add256
          (s.GetValueOrZero
            (GetHash AvailableBalance (decodeBitcoinAddress ad) t)) a)))
      else if k = GetHash OverallBalance (decodeBitcoinAddress ad) t then
        some (pad32 (convertIntToByte (add256
          (s.GetValueOrZero
            (GetHash OverallBalance (decodeBitcoinAddress ad) t)) a)))
      else if k = GetHash AvailableBalance (decodeBitcoinAddress ad) t then
        some (pad32 (convertIntToByte (add256
          (s.GetValueOrZero
            (GetHash AvailableBalance (decodeBitcoinAddress ad) t)) a)))
      else if k = GetHash OverallBalancePkscript
          (strBytes (getSourceWalletAndPkscript s i).2) t then
        some (pad32 (convertIntToByte (sub256
          (s.GetValueOrZero
            (GetHash OverallBalance (getSourceWalletAndPkscript s i).1 t)) a)))
      else if k = GetHash OverallBalance (getSourceWalletAndPkscript s i).1 t then
        some (pad32 (convertIntToByte (sub256
          (s.GetValueOrZero
            (GetHash OverallBalance (getSourceWalletAndPkscript s i).1 t)) a)))
      else s.view k := by
  unfold transferTransferNormal
  dsimp only
  rw [view_insert, view_insert, view_insert, view_insert, view_insert, view_insert,
    view_insert]
  rfl

/-- The length-prefixed hex-decoded source pkscript image stored by
saveSourceWalletAndPkscript. -/
def encodedPk (p : String) : Bytes :=
  (p.utf8ByteSize % 256) ::
    hexDecodePart (if p.utf8ByteSize % 2 = 1 then p ++ "0" else p)

/-- The first stored slot of the encoded pkscript. -/
def b1Pk (p : String) : Bytes :=
  padTo32Bytes ((encodedPk p).take (min (encodedPk p).length 32))

/-- The second stored slot of the encoded pkscript. -/
def b2Pk (p : String) : Bytes := padTo32Bytes ((encodedPk p).drop 32)

theorem saveSource_eq (s : HState) (i : String) (w : Bytes) (p : String) :
    saveSourceWalletAndPkscript s i w p =
      (if (encodedPk p).length > 32 then
        (((s.insert (GetEventHash TransferInscribeSourceWallet i) w).insert
          (GetEventHash TransferInscribeSourcePkscript1 i) (b1Pk p)).insert
          (GetEventHash TransferInscribeSourcePkscript2 i) (b2Pk p))
      else
        ((s.insert (GetEventHash TransferInscribeSourceWallet i) w).insert
          (GetEventHash TransferInscribeSourcePkscript1 i) (b1Pk p))) := rfl

theorem GetValueOrZero_saveSource (s : HState) (i : String) (w : Bytes)
    (p : String) (k : HKey) :
    (saveSourceWalletAndPkscript s i w p).GetValueOrZero k = s.GetValueOrZero k := by
  unfold Header.GetValueOrZero Header.GetUInt256 Header.get
  rw [Root_saveSource]

theorem view_saveSource_long (s : HState) (i : String) (w : Bytes) (p : String)
    (k : HKey) (h : (encodedPk p).length > 32) :
    (saveSourceWalletAndPkscript s i w p).view k =
      if k = GetEventHash TransferInscribeSourcePkscript2 i then some (pad32 (b2Pk p))
      else if k = GetEventHash TransferInscribeSourcePkscript1 i then
        some (pad32 (b1Pk p))
      else if k = GetEventHash TransferInscribeSourceWallet i then some (pad32 w)
      else s.view k := by
  rw [saveSource_eq, if_pos h, view_insert, view_insert, view_insert]

theorem view_saveSource_short (s : HState) (i : String) (w : Bytes) (p : String)
    (k : HKey) (h : ¬(encodedPk p).length > 32) :
    (saveSourceWalletAndPkscript s i w p).view k =
      if k = GetEventHash TransferInscribeSourcePkscript1 i then some (pad32 (b1Pk p))
      else if k = GetEventHash TransferInscribeSourceWallet i then some (pad32 w)
      else s.view k := by
  rw [saveSource_eq, if_neg h, view_insert, view_insert]

theorem view_tInscribe_long (s : HState) (i pk ad t : String) (a av : Nat)
    (k : HKey) (h : (encodedPk pk).length > 32) :
    (transferInscribe s i pk ad t a av).view k =
      if k = GetEventHash TransferInscribeCount i then
        some (pad32 (convertIntToByte (add256
          (s.GetValueOrZero (GetEventHash TransferInscribeCount i)) 1)))
      else if k = GetEventHash TransferInscribeSourcePkscript2 i then
        some (pad32 (b2Pk pk))
      else if k = GetEventHash TransferInscribeSourcePkscript1 i then
        some (pad32 (b1Pk pk))
      else if k = GetEventHash TransferInscribeSourceWallet i then
        some (pad32 (decodeBitcoinAddress ad))
      else if k = GetHash AvailableBalancePkscript (strBytes pk) t then
        some (pad32 (convertIntToByte (sub256 av a)))
      else if k = GetHash AvailableBalance (decodeBitcoinAddress ad) t then
        some (pad32 (convertIntToByte (sub256 av a)))
      else s.view k := by
  unfold transferInscribe
  dsimp only
  rw [view_insert, view_saveSource_long _ _ _ _ _ h, view_insert, view_insert,
    GetValueOrZero_saveSource]
  rfl

theorem view_tInscribe_short (s : HState) (i pk ad t : String) (a av : Nat)
    (k : HKey) (h : ¬(encodedPk pk).length > 32) :
    (transferInscribe s i pk ad t a av).view k =
      if k = GetEventHash TransferInscribeCount i then
        some (pad32 (convertIntToByte (add256
          (s.GetValueOrZero (GetEventHash TransferInscribeCount i)) 1)))
      else if k = GetEventHash TransferInscribeSourcePkscript1 i then
        some (pad32 (b1Pk pk))
      else if k = GetEventHash TransferInscribeSourceWallet i then
        some (pad32 (decodeBitcoinAddress ad))
      else if k = GetHash AvailableBalancePkscript (strBytes pk) t then
        some (pad32 (convertIntToByte (sub256 av a)))
      else if k = GetHash AvailableBalance (decodeBitcoinAddress ad) t then
        some (pad32 (convertIntToByte (sub256 av a)))
      else s.view k := by
  unfold transferInscribe
  dsimp only
  rw [view_insert, view_saveSource_short _ _ _ _ _ h, view_insert, view_insert,
    GetValueOrZero_saveSource]
  rfl

/-! ## Claim C7: source recovery round trip -/

/-- The reading getSourceWalletAndPkscript performs, over an arbitrary slot
map: the committed instantiation is the source function itself, the view
instantiation describes what it returns once the pending writes are paged. -/
def getSourceFrom (f : HKey → Option Bytes) (inscrID : String) : Bytes × String :=
  let sourceAddr := (f (GetEventHash TransferInscribeSourceWallet inscrID)).getD []
  let b1 := (f (GetEventHash TransferInscribeSourcePkscript1 inscrID)).getD []
  let b2 := (f (GetEventHash TransferInscribeSourcePkscript2 inscrID)).getD []
  let b := b1 ++ b2
  (sourceAddr, ⟨(hexEncodeChars (b.drop 1)).take (b.headD 0)⟩)

theorem getSource_eq_from (s : HState) (i : String) :
    getSourceWalletAndPkscript s i = getSourceFrom s.get i := rfl

theorem getSourceFrom_paged (s : HState) (g : Nat → Except String String)
    (q : Bool) (i : String) :
    getSourceFrom ((s.Paging g q).1).get i = getSourceFrom s.view i := by
  unfold getSourceFrom
  rw [get_Paging, get_Paging, get_Paging]

theorem decodeBitcoinAddress_length (a : String) :
    (decodeBitcoinAddress a).length = 32 := pad32_length _

/-- A pkscript as the interpreter receives it for claim C7: a lowercase hex
string of at most 126 nibbles (at most two slots of stored payload). -/
def pkOk (p : String) : Prop :=
  (∀ c ∈ p.data, isLowerHexDigit c) ∧ p.data.length ≤ 126

theorem padTo32Bytes_of_length_le {bs : Bytes} (h : bs.length ≤ 32) :
    (padTo32Bytes bs).length = 32 := by
  simp [padTo32Bytes]
  omega

/-- After a transfer inscription, the view-level source recovery returns
exactly the decoded source wallet and the source pkscript. -/
theorem recover_tInscribe (s : HState) (i pk ad t : String) (a av : Nat)
    (hpk : pkOk pk) :
    getSourceFrom ((transferInscribe s i pk ad t a av).view) i =
      (decodeBitcoinAddress ad, pk) := by
  obtain ⟨hhex, hlen⟩ := hpk
  have hutf : pk.utf8ByteSize = pk.data.length := utf8ByteSize_hex pk hhex
  have hpadfacts : ∃ padc : List Char,
      (if pk.utf8ByteSize % 2 = 1 then pk ++ "0" else pk).data = padc ∧
      (∀ c ∈ padc, isLowerHexDigit c) ∧ padc.length % 2 = 0 ∧
      pk.data.length ≤ padc.length ∧ padc.length ≤ pk.data.length + 1 ∧
      padc.take pk.data.length = pk.data := by
    by_cases hodd : pk.utf8ByteSize % 2 = 1
    · refine ⟨pk.data ++ ['0'], ?_, ?_, ?_, ?_, ?_, ?_⟩
      · rw [if_pos hodd]
        simp [String.data_append]
      · intro c hc
        rcases List.mem_append.mp hc with h | h
        · exact hhex c h
        · simp at h
          subst h
          unfold isLowerHexDigit lowerHexDigits
          decide
      · rw [hutf] at hodd
        rw [List.length_append, List.length_singleton]
        omega
      · simp
      · simp
      · rw [List.take_append_of_le_length (le_refl _), List.take_length]
    · refine ⟨pk.data, ?_, hhex, ?_, le_refl _, by omega, List.take_length _⟩
      · rw [if_neg hodd]
      · rw [hutf] at hodd
        omega
  obtain ⟨padc, hpadc, hpadhex, hpadeven, hL1, hL2, hptake⟩ := hpadfacts
  obtain ⟨hdlen, hdenc⟩ :=
    hexDecodeCore_roundtrip padc.length padc (le_refl _) hpadhex hpadeven
  have hL256 : pk.utf8ByteSize % 256 = pk.data.length := by
    rw [hutf]
    exact Nat.mod_eq_of_lt (by omega)
  have henc : encodedPk pk = pk.data.length :: (hexDecodeCore padc).1 := by
    unfold encodedPk hexDecodePart
    rw [hL256, hpadc]
  have henclen : (encodedPk pk).length = 1 + padc.length / 2 := by
    rw [henc]
    simp [hdlen]
    omega
  have hencle : (encodedPk pk).length ≤ 64 := by
    rw [henclen]
    omega
  have hbuf : ∃ junk : Bytes,
      (((transferInscribe s i pk ad t a av).view
          (GetEventHash TransferInscribeSourcePkscript1 i)).getD []) ++
        (((transferInscribe s i pk ad t a av).view
          (GetEventHash TransferInscribeSourcePkscript2 i)).getD []) =
        encodedPk pk ++ junk := by
    by_cases hlong : (encodedPk pk).length > 32
    · have h1 : (transferInscribe s i pk ad t a av).view
          (GetEventHash TransferInscribeSourcePkscript1 i) = some (pad32 (b1Pk pk)) := by
        rw [view_tInscribe_long s i pk ad t a av _ hlong]
        rw [if_neg (by simp [GetEventHash, TransferInscribeCount,
          TransferInscribeSourcePkscript1])]
        rw [if_neg (by simp [GetEventHash, TransferInscribeSourcePkscript2,
          TransferInscribeSourcePkscript1])]
        rw [if_pos rfl]
      have h2 : (transferInscribe s i pk ad t a av).view
          (GetEventHash TransferInscribeSourcePkscript2 i) = some (pad32 (b2Pk pk)) := by
        rw [view_tInscribe_long s i pk ad t a av _ hlong]
        rw [if_neg (by simp [GetEventHash, TransferInscribeCount,
          TransferInscribeSourcePkscript2])]
        rw [if_pos rfl]
      have hb1 : pad32 (b1Pk pk) = (encodedPk pk).take 32 := by
        have htk : ((encodedPk pk).take 32).length = 32 := by
          rw [List.length_take]
          omega
        unfold b1Pk
        rw [min_eq_right (by omega : 32 ≤ (encodedPk pk).length)]
        have hpt : padTo32Bytes ((encodedPk pk).take 32) = (encodedPk pk).take 32 := by
          unfold padTo32Bytes
          rw [htk]
          simp
        rw [hpt, pad32_of_length_32 htk]
      have hb2 : pad32 (b2Pk pk) =
          (encodedPk pk).drop 32 ++
            List.replicate (32 - ((encodedPk pk).length - 32)) 0 := by
        have hdr : ((encodedPk pk).drop 32).length = (encodedPk pk).length - 32 := by
          simp
        unfold b2Pk padTo32Bytes
        rw [hdr]
        exact pad32_of_length_32 (by
          rw [List.length_append, hdr, List.length_replicate]
          omega)
      refine ⟨List.replicate (32 - ((encodedPk pk).length - 32)) 0, ?_⟩
      rw [h1, h2]
      simp only [Option.getD_some]
      rw [hb1, hb2, ← List.append_assoc, List.take_append_drop]
    · have h1 : (transferInscribe s i pk ad t a av).view
          (GetEventHash TransferInscribeSourcePkscript1 i) = some (pad32 (b1Pk pk)) := by
        rw [view_tInscribe_short s i pk ad t a av _ hlong]
        rw [if_neg (by simp [GetEventHash, TransferInscribeCount,
          TransferInscribeSourcePkscript1])]
        rw [if_pos rfl]
      have hb1 : pad32 (b1Pk pk) =
          encodedPk pk ++ List.replicate (32 - (encodedPk pk).length) 0 := by
        unfold b1Pk
        rw [min_eq_left (by omega : (encodedPk pk).length ≤ 32), List.take_length]
        unfold padTo32Bytes
        exact pad32_of_length_32 (by
          rw [List.length_append, List.length_replicate]
          omega)
      refine ⟨List.replicate (32 - (encodedPk pk).length) 0 ++
        (((transferInscribe s i pk ad t a av).view
          (GetEventHash TransferInscribeSourcePkscript2 i)).getD []), ?_⟩
      rw [h1]
      simp only [Option.getD_some]
      rw [hb1, List.append_assoc]
  obtain ⟨junk, hjunk⟩ := hbuf
  have hwallet : (transferInscribe s i pk ad t a av).view
      (GetEventHash TransferInscribeSourceWallet i) =
        some (pad32 (decodeBitcoinAddress ad)) := by
    by_cases hlong : (encodedPk pk).length > 32
    · rw [view_tInscribe_long s i pk ad t a av _ hlong]
      rw [if_neg (by simp [GetEventHash, TransferInscribeCount,
        TransferInscribeSourceWallet])]
      rw [if_neg (by simp [GetEventHash, TransferInscribeSourcePkscript2,
        TransferInscribeSourceWallet])]
      rw [if_neg (by simp [GetEventHash, TransferInscribeSourcePkscript1,
        TransferInscribeSourceWallet])]
      rw [if_pos rfl]
    · rw [view_tInscribe_short s i pk ad t a av _ hlong]
      rw [if_neg (by simp [GetEventHash, TransferInscribeCount,
        TransferInscribeSourceWallet])]
      rw [if_neg (by simp [GetEventHash, TransferInscribeSourcePkscript1,
        TransferInscribeSourceWallet])]
      rw [if_pos rfl]
  unfold getSourceFrom
  dsimp only
  rw [hjunk, hwallet]
  simp only [Option.getD_some]
  rw [pad32_of_length_32 (decodeBitcoinAddress_length ad)]
  have hhead : (encodedPk pk ++ junk).headD 0 = pk.data.length := by
    rw [henc]
    rfl
  have hdrop : (encodedPk pk ++ junk).drop 1 = (hexDecodeCore padc).1 ++ junk := by
    rw [henc]
    rfl
  rw [hhead, hdrop, hexEncodeChars_append, hdenc]
  have htake : (padc ++ hexEncodeChars junk).take pk.data.length = pk.data := by
    rw [List.take_append_of_le_length hL1, hptake]
  rw [htake]

/-! ## Claim C7: the balance-consistency invariant -/

theorem get_perform (s : HState) (a : ExecAction) (k : HKey) :
    (perform s a).get k = s.get k := by
  unfold Header.get
  rw [Root_perform]

theorem GetValueOrZero_perform (s : HState) (a : ExecAction) (k : HKey) :
    (perform s a).GetValueOrZero k = s.GetValueOrZero k := by
  unfold Header.GetValueOrZero Header.GetUInt256 Header.get
  rw [Root_perform]

theorem getSourceFrom_get_perform (s : HState) (a : ExecAction) (i : String) :
    getSourceFrom (perform s a).get i = getSourceFrom s.get i := by
  unfold getSourceFrom
  rw [get_perform, get_perform, get_perform]

theorem viewNum_congr {a b : HState} {k : HKey} (h : a.view k = b.view k) :
    a.viewNum k = b.viewNum k := by
  unfold Header.viewNum
  rw [h]

theorem view_deployInscribe_event (s : HState) (i pk ad t : String) (m d l : Nat)
    (eid : Nat) (j : String) :
    (deployInscribe s i pk ad t m d l).view (GetEventHash eid j) =
      s.view (GetEventHash eid j) := by
  rw [view_deployInscribe]
  simp [GetHash, GetEventHash]

theorem view_mintInscribe_event (s : HState) (i pk ad t : String) (a : Nat)
    (eid : Nat) (j : String) :
    (mintInscribe s i pk ad t a).view (GetEventHash eid j) =
      s.view (GetEventHash eid j) := by
  rw [view_mintInscribe]
  simp [GetHash, GetEventHash]

theorem view_tFee_event (s : HState) (i t : String) (a tx : Nat)
    (eid : Nat) (j : String) (heid : eid ≠ TransferTransferCount) :
    (transferTransferSpendToFee s i t a tx).view (GetEventHash eid j) =
      s.view (GetEventHash eid j) := by
  rw [view_tFee]
  simp [GetHash, GetEventHash, heid]

theorem view_tNormal_event (s : HState) (i pk ad t : String) (a tx : Nat)
    (eid : Nat) (j : String) (heid : eid ≠ TransferTransferCount) :
    (transferTransferNormal s i pk ad t a tx).view (GetEventHash eid j) =
      s.view (GetEventHash eid j) := by
  rw [view_tNormal]
  simp [GetHash, GetEventHash, heid]

theorem view_tInscribe_event (s : HState) (i pk ad t : String) (a av : Nat)
    (eid : Nat) (j : String) (hj : j ≠ i) :
    (transferInscribe s i pk ad t a av).view (GetEventHash eid j) =
      s.view (GetEventHash eid j) := by
  by_cases hlen : (encodedPk pk).length > 32
  · rw [view_tInscribe_long s i pk ad t a av _ hlen]
    simp [GetHash, GetEventHash, hj]
  · rw [view_tInscribe_short s i pk ad t a av _ hlen]
    simp [GetHash, GetEventHash, hj]

theorem getSourceFrom_view_Paging (s : HState) (g : Nat → Except String String)
    (q : Bool) (i : String) :
    getSourceFrom ((s.Paging g q).1).view i = getSourceFrom s.view i := by
  unfold getSourceFrom
  rw [Paging_view_view, Paging_view_view, Paging_view_view]

theorem initial_view (k : HKey) : initialHState.view k = none := rfl

theorem initial_get (k : HKey) : initialHState.get k = none := rfl

/-- Claim C7's notion of a holder: a record is paired when its wallet decodes
to the canonical wallet image of its pkscript, the pkscript is in the holder
set, and the pkscript round-trips through the stored hex encoding. -/
def pairedRec (W : String → Bytes) (PS : Set String) (r : OrdTransfer) : Prop :=
  decodeBitcoinAddress r.NewWallet = W r.NewPkscript ∧ r.NewPkscript ∈ PS ∧
    pkOk r.NewPkscript

/-- The pkscript and wallet arguments of a classified action come from the
record's NewPkscript and NewWallet fields. -/
def actionFromRec (r : OrdTransfer) : ExecAction → Prop
  | .deploy _ pk ad _ _ _ _ => pk = r.NewPkscript ∧ ad = r.NewWallet
  | .mint _ pk ad _ _ => pk = r.NewPkscript ∧ ad = r.NewWallet
  | .tInscribe _ pk ad _ _ _ => pk = r.NewPkscript ∧ ad = r.NewWallet
  | .tNormal _ pk ad _ _ _ => pk = r.NewPkscript ∧ ad = r.NewWallet
  | _ => True

theorem classifyDeploy_fromRec (up : Nat) (s : HState) (r : OrdTransfer)
    (t : String) : actionFromRec r (classifyDeploy up s r t) := by
  unfold classifyDeploy
  repeat' first
  | split
  | (dsimp only)
  all_goals first
  | trivial
  | exact ⟨rfl, rfl⟩

theorem classifyMint_fromRec (up : Nat) (s : HState) (r : OrdTransfer)
    (t : String) : actionFromRec r (classifyMint up s r t) := by
  unfold classifyMint
  repeat' first
  | split
  | (dsimp only)
  all_goals first
  | trivial
  | exact ⟨rfl, rfl⟩

theorem classifyTransfer_fromRec (up : Nat) (s : HState) (r : OrdTransfer)
    (t : String) : actionFromRec r (classifyTransfer up s r t) := by
  unfold classifyTransfer
  repeat' first
  | split
  | (dsimp only)
  all_goals first
  | trivial
  | exact ⟨rfl, rfl⟩

theorem classify_fromRec (up : Nat) (s : HState) (r : OrdTransfer) :
    actionFromRec r (classify up s r) := by
  unfold classify
  repeat' first
  | split
  | (dsimp only)
  all_goals first
  | trivial
  | exact classifyDeploy_fromRec up s r _
  | exact classifyMint_fromRec up s r _
  | exact classifyTransfer_fromRec up s r _

/-- The staged (post-paging) balances of every holder agree between the
wallet-keyed and pkscript-keyed slots, byte for byte. -/
def balViews (W : String → Bytes) (PS : Set String) (s : HState) : Prop :=
  ∀ p ∈ PS, ∀ t : String,
    s.view (GetHash AvailableBalance (W p) t) =
      s.view (GetHash AvailableBalancePkscript (strBytes p) t) ∧
    s.view (GetHash OverallBalance (W p) t) =
      s.view (GetHash OverallBalancePkscript (strBytes p) t)

/-- The committed balances of every holder agree between the wallet-keyed and
pkscript-keyed slots, byte for byte. -/
def balGets (W : String → Bytes) (PS : Set String) (s : HState) : Prop :=
  ∀ p ∈ PS, ∀ t : String,
    s.get (GetHash AvailableBalance (W p) t) =
      s.get (GetHash AvailableBalancePkscript (strBytes p) t) ∧
    s.get (GetHash OverallBalance (W p) t) =
      s.get (GetHash OverallBalancePkscript (strBytes p) t)

/-- Every inscription whose committed transfer-inscribe counter is set
recovers a paired source wallet and pkscript from committed state. -/
def srcGetInv (W : String → Bytes) (PS : Set String) (s : HState) : Prop :=
  ∀ i : String, s.GetValueOrZero (GetEventHash TransferInscribeCount i) ≠ 0 →
    (getSourceFrom s.get i).1 = W ((getSourceFrom s.get i).2) ∧
    (getSourceFrom s.get i).2 ∈ PS

/-- Every inscription whose staged transfer-inscribe counter is set recovers
a paired source wallet and pkscript from the staged view. -/
def srcViewInv (W : String → Bytes) (PS : Set String) (s : HState) : Prop :=
  ∀ i : String, s.viewNum (GetEventHash TransferInscribeCount i) ≠ 0 →
    (getSourceFrom s.view i).1 = W ((getSourceFrom s.view i).2) ∧
    (getSourceFrom s.view i).2 ∈ PS

/-- The full balance-consistency invariant of claim C7. -/
def balInv (W : String → Bytes) (PS : Set String) (s : HState) : Prop :=
  balViews W PS s ∧ balGets W PS s ∧ srcGetInv W PS s ∧ srcViewInv W PS s

theorem balViews_perform (W : String → Bytes) (PS : Set String)
    (hWinj : Set.InjOn W PS) (s : HState) (r : OrdTransfer) (a : ExecAction)
    (hP : pairedRec W PS r) (hok : actionOk s a) (hfr : actionFromRec r a)
    (hsg : srcGetInv W PS s) (hbv : balViews W PS s) :
    balViews W PS (perform s a) := by
  obtain ⟨hWr, hPSr, hpkOkr⟩ := hP
  cases a with
  | skip => exact hbv
  | deploy i pk ad t m d l =>
    intro p hp t'
    dsimp only [perform]
    constructor
    · rw [view_deployInscribe, view_deployInscribe]
      simp [GetHash, AvailableBalance, AvailableBalancePkscript, OverallBalance,
        OverallBalancePkscript, RemainingSupply, MaxSupply, LimitPerMint, Decimals,
        TickExists]
      exact (hbv p hp t').1
    · rw [view_deployInscribe, view_deployInscribe]
      simp [GetHash, AvailableBalance, AvailableBalancePkscript, OverallBalance,
        OverallBalancePkscript, RemainingSupply, MaxSupply, LimitPerMint, Decimals,
        TickExists]
      exact (hbv p hp t').2
  | mint i pk ad t am =>
    obtain ⟨hpk, had⟩ := hfr
    subst hpk
    subst had
    intro p hp t'
    dsimp only [perform]
    by_cases hpt : p = r.NewPkscript ∧ t' = t
    · obtain ⟨rfl, rfl⟩ := hpt
      constructor
      · rw [view_mintInscribe, view_mintInscribe]
        simp [GetHash, AvailableBalance, AvailableBalancePkscript, OverallBalance,
          OverallBalancePkscript, RemainingSupply, hWr]
      · rw [view_mintInscribe, view_mintInscribe]
        simp [GetHash, AvailableBalance, AvailableBalancePkscript, OverallBalance,
          OverallBalancePkscript, RemainingSupply, hWr]
    · have hne1 : ¬(W p = decodeBitcoinAddress r.NewWallet ∧ t' = t) := by
        rintro ⟨h1, h2⟩
        rw [hWr] at h1
        exact hpt ⟨hWinj hp hPSr h1, h2⟩
      have hne2 : ¬(strBytes p = strBytes r.NewPkscript ∧ t' = t) := by
        rintro ⟨h1, h2⟩
        exact hpt ⟨strBytes_injective h1, h2⟩
      constructor
      · rw [view_mintInscribe, view_mintInscribe]
        simp [GetHash, AvailableBalance, AvailableBalancePkscript, OverallBalance,
          OverallBalancePkscript, RemainingSupply, hne1, hne2]
        exact (hbv p hp t').1
      · rw [view_mintInscribe, view_mintInscribe]
        simp [GetHash, AvailableBalance, AvailableBalancePkscript, OverallBalance,
          OverallBalancePkscript, RemainingSupply, hne1, hne2]
        exact (hbv p hp t').2
  | tInscribe i pk ad t am av =>
    obtain ⟨hpk, had⟩ := hfr
    subst hpk
    subst had
    intro p hp t'
    dsimp only [perform]
    by_cases hpt : p = r.NewPkscript ∧ t' = t
    · obtain ⟨rfl, rfl⟩ := hpt
      constructor
      · by_cases hlen : (encodedPk r.NewPkscript).length > 32
        · rw [view_tInscribe_long s i _ _ _ _ _ _ hlen,
            view_tInscribe_long s i _ _ _ _ _ _ hlen]
          simp [GetHash, GetEventHash, AvailableBalance, AvailableBalancePkscript,
            TransferInscribeCount, TransferInscribeSourceWallet,
            TransferInscribeSourcePkscript1, TransferInscribeSourcePkscript2, hWr]
        · rw [view_tInscribe_short s i _ _ _ _ _ _ hlen,
            view_tInscribe_short s i _ _ _ _ _ _ hlen]
          simp [GetHash, GetEventHash, AvailableBalance, AvailableBalancePkscript,
            TransferInscribeCount, TransferInscribeSourceWallet,
            TransferInscribeSourcePkscript1, hWr]
      · by_cases hlen : (encodedPk r.NewPkscript).length > 32
        · rw [view_tInscribe_long s i _ _ _ _ _ _ hlen,
            view_tInscribe_long s i _ _ _ _ _ _ hlen]
          simp [GetHash, GetEventHash, AvailableBalance, AvailableBalancePkscript,
            OverallBalance, OverallBalancePkscript, TransferInscribeCount,
            TransferInscribeSourceWallet, TransferInscribeSourcePkscript1,
            TransferInscribeSourcePkscript2]
          exact (hbv _ hp t').2
        · rw [view_tInscribe_short s i _ _ _ _ _ _ hlen,
            view_tInscribe_short s i _ _ _ _ _ _ hlen]
          simp [GetHash, GetEventHash, AvailableBalance, AvailableBalancePkscript,
            OverallBalance, OverallBalancePkscript, TransferInscribeCount,
            TransferInscribeSourceWallet, TransferInscribeSourcePkscript1]
          exact (hbv _ hp t').2
    · have hne1 : ¬(W p = decodeBitcoinAddress r.NewWallet ∧ t' = t) := by
        rintro ⟨h1, h2⟩
        rw [hWr] at h1
        exact hpt ⟨hWinj hp hPSr h1, h2⟩
      have hne2 : ¬(strBytes p = strBytes r.NewPkscript ∧ t' = t) := by
        rintro ⟨h1, h2⟩
        exact hpt ⟨strBytes_injective h1, h2⟩
      constructor
      · by_cases hlen : (encodedPk r.NewPkscript).length > 32
        · rw [view_tInscribe_long s i _ _ _ _ _ _ hlen,
            view_tInscribe_long s i _ _ _ _ _ _ hlen]
          simp [GetHash, GetEventHash, AvailableBalance, AvailableBalancePkscript,
            TransferInscribeCount, TransferInscribeSourceWallet,
            TransferInscribeSourcePkscript1, TransferInscribeSourcePkscript2,
            hne1, hne2]
          exact (hbv p hp t').1
        · rw [view_tInscribe_short s i _ _ _ _ _ _ hlen,
            view_tInscribe_short s i _ _ _ _ _ _ hlen]
          simp [GetHash, GetEventHash, AvailableBalance, AvailableBalancePkscript,
            TransferInscribeCount, TransferInscribeSourceWallet,
            TransferInscribeSourcePkscript1, hne1, hne2]
          exact (hbv p hp t').1
      · by_cases hlen : (encodedPk r.NewPkscript).length > 32
        · rw [view_tInscribe_long s i _ _ _ _ _ _ hlen,
            view_tInscribe_long s i _ _ _ _ _ _ hlen]
          simp [GetHash, GetEventHash, AvailableBalance, AvailableBalancePkscript,
            OverallBalance, OverallBalancePkscript, TransferInscribeCount,
            TransferInscribeSourceWallet, TransferInscribeSourcePkscript1,
            TransferInscribeSourcePkscript2]
          exact (hbv p hp t').2
        · rw [view_tInscribe_short s i _ _ _ _ _ _ hlen,
            view_tInscribe_short s i _ _ _ _ _ _ hlen]
          simp [GetHash, GetEventHash, AvailableBalance, AvailableBalancePkscript,
            OverallBalance, OverallBalancePkscript, TransferInscribeCount,
            TransferInscribeSourceWallet, TransferInscribeSourcePkscript1]
          exact (hbv p hp t').2
  | tFee i t am tx =>
    have hused : isUsedOrInvalid s i = false := hok
    have hTIC := (isUsedOrInvalid_false_iff s i).mp hused
    have hsrc := hsg i (by rw [hTIC.1]; exact one_ne_zero)
    rw [← getSource_eq_from] at hsrc
    intro p hp t'
    dsimp only [perform]
    by_cases hpt : p = (getSourceWalletAndPkscript s i).2 ∧ t' = t
    · obtain ⟨rfl, rfl⟩ := hpt
      constructor
      · rw [view_tFee, view_tFee]
        simp [GetHash, GetEventHash, AvailableBalance, AvailableBalancePkscript,
          TransferTransferCount, hsrc.1]
      · rw [view_tFee, view_tFee]
        simp [GetHash, GetEventHash, AvailableBalance, AvailableBalancePkscript,
          OverallBalance, OverallBalancePkscript, TransferTransferCount]
        exact (hbv _ hp t').2
    · have hne1 : ¬(W p = (getSourceWalletAndPkscript s i).1 ∧ t' = t) := by
        rintro ⟨h1, h2⟩
        rw [hsrc.1] at h1
        exact hpt ⟨hWinj hp hsrc.2 h1, h2⟩
      have hne2 : ¬(strBytes p = strBytes (getSourceWalletAndPkscript s i).2 ∧
          t' = t) := by
        rintro ⟨h1, h2⟩
        exact hpt ⟨strBytes_injective h1, h2⟩
      constructor
      · rw [view_tFee, view_tFee]
        simp [GetHash, GetEventHash, AvailableBalance, AvailableBalancePkscript,
          TransferTransferCount, hne1, hne2]
        exact (hbv p hp t').1
      · rw [view_tFee, view_tFee]
        simp [GetHash, GetEventHash, AvailableBalance, AvailableBalancePkscript,
          OverallBalance, OverallBalancePkscript, TransferTransferCount]
        exact (hbv p hp t').2
  | tNormal i pk ad t am tx =>
    obtain ⟨hpk, had⟩ := hfr
    subst hpk
    subst had
    have hused : isUsedOrInvalid s i = false := hok
    have hTIC := (isUsedOrInvalid_false_iff s i).mp hused
    have hsrc := hsg i (by rw [hTIC.1]; exact one_ne_zero)
    rw [← getSource_eq_from] at hsrc
    intro p hp t'
    dsimp only [perform]
    by_cases hpt1 : p = r.NewPkscript ∧ t' = t
    · obtain ⟨rfl, rfl⟩ := hpt1
      constructor
      · rw [view_tNormal, view_tNormal]
        simp [GetHash, GetEventHash, AvailableBalance, AvailableBalancePkscript,
          OverallBalance, OverallBalancePkscript, TransferTransferCount, hWr]
      · rw [view_tNormal, view_tNormal]
        simp [GetHash, GetEventHash, AvailableBalance, AvailableBalancePkscript,
          OverallBalance, OverallBalancePkscript, TransferTransferCount, hWr]
    · by_cases hpt2 : p = (getSourceWalletAndPkscript s i).2 ∧ t' = t
      · obtain ⟨rfl, rfl⟩ := hpt2
        have hqne : (getSourceWalletAndPkscript s i).2 ≠ r.NewPkscript :=
          fun h => hpt1 ⟨h, rfl⟩
        have hne1 : W (getSourceWalletAndPkscript s i).2 ≠
            decodeBitcoinAddress r.NewWallet := by
          intro h
          rw [hWr] at h
          exact hqne (hWinj hsrc.2 hPSr h)
        have hne2 : strBytes (getSourceWalletAndPkscript s i).2 ≠
            strBytes r.NewPkscript :=
          fun h => hqne (strBytes_injective h)
        constructor
        · rw [view_tNormal, view_tNormal]
          simp [GetHash, GetEventHash, AvailableBalance, AvailableBalancePkscript,
            OverallBalance, OverallBalancePkscript, TransferTransferCount,
            hne1, hne2]
          exact (hbv _ hp t').1
        · rw [view_tNormal, view_tNormal]
          simp [GetHash, GetEventHash, AvailableBalance, AvailableBalancePkscript,
            OverallBalance, OverallBalancePkscript, TransferTransferCount,
            hne1, hne2, hsrc.1]
      · have hne1 : ¬(W p = decodeBitcoinAddress r.NewWallet ∧ t' = t) := by
          rintro ⟨h1, h2⟩
          rw [hWr] at h1
          exact hpt1 ⟨hWinj hp hPSr h1, h2⟩
        have hne2 : ¬(strBytes p = strBytes r.NewPkscript ∧ t' = t) := by
          rintro ⟨h1, h2⟩
          exact hpt1 ⟨strBytes_injective h1, h2⟩
        have hne3 : ¬(W p = (getSourceWalletAndPkscript s i).1 ∧ t' = t) := by
          rintro ⟨h1, h2⟩
          rw [hsrc.1] at h1
          exact hpt2 ⟨hWinj hp hsrc.2 h1, h2⟩
        have hne4 : ¬(strBytes p = strBytes (getSourceWalletAndPkscript s i).2 ∧
            t' = t) := by
          rintro ⟨h1, h2⟩
          exact hpt2 ⟨strBytes_injective h1, h2⟩
        constructor
        · rw [view_tNormal, view_tNormal]
          simp [GetHash, GetEventHash, AvailableBalance, AvailableBalancePkscript,
            OverallBalance, OverallBalancePkscript, TransferTransferCount,
            hne1, hne2, hne3, hne4]
          exact (hbv p hp t').1
        · rw [view_tNormal, view_tNormal]
          simp [GetHash, GetEventHash, AvailableBalance, AvailableBalancePkscript,
            OverallBalance, OverallBalancePkscript, TransferTransferCount,
            hne1, hne2, hne3, hne4]
          exact (hbv p hp t').2

theorem balGets_perform (W : String → Bytes) (PS : Set String) (s : HState)
    (a : ExecAction) (hbg : balGets W PS s) : balGets W PS (perform s a) := by
  intro p hp t'
  constructor
  · rw [get_perform, get_perform]
    exact (hbg p hp t').1
  · rw [get_perform, get_perform]
    exact (hbg p hp t').2

theorem srcGetInv_perform (W : String → Bytes) (PS : Set String) (s : HState)
    (a : ExecAction) (hsg : srcGetInv W PS s) : srcGetInv W PS (perform s a) := by
  intro i hTIC
  rw [GetValueOrZero_perform] at hTIC
  rw [getSourceFrom_get_perform]
  exact hsg i hTIC

theorem srcViewInv_perform (W : String → Bytes) (PS : Set String) (s : HState)
    (r : OrdTransfer) (a : ExecAction) (hP : pairedRec W PS r)
    (hfr : actionFromRec r a) (hsv : srcViewInv W PS s) :
    srcViewInv W PS (perform s a) := by
  obtain ⟨hWr, hPSr, hpkOkr⟩ := hP
  cases a with
  | skip => exact hsv
  | deploy i pk ad t m d l =>
    intro j hTIC
    dsimp only [perform] at hTIC ⊢
    rw [viewNum_congr (view_deployInscribe_event s i pk ad t m d l _ j)] at hTIC
    have hgs : getSourceFrom (deployInscribe s i pk ad t m d l).view j =
        getSourceFrom s.view j := by
      unfold getSourceFrom
      rw [view_deployInscribe_event, view_deployInscribe_event,
        view_deployInscribe_event]
    rw [hgs]
    exact hsv j hTIC
  | mint i pk ad t am =>
    intro j hTIC
    dsimp only [perform] at hTIC ⊢
    rw [viewNum_congr (view_mintInscribe_event s i pk ad t am _ j)] at hTIC
    have hgs : getSourceFrom (mintInscribe s i pk ad t am).view j =
        getSourceFrom s.view j := by
      unfold getSourceFrom
      rw [view_mintInscribe_event, view_mintInscribe_event, view_mintInscribe_event]
    rw [hgs]
    exact hsv j hTIC
  | tInscribe i pk ad t am av =>
    obtain ⟨hpk, had⟩ := hfr
    subst hpk
    subst had
    intro j hTIC
    dsimp only [perform] at hTIC ⊢
    by_cases hj : j = i
    · subst hj
      rw [recover_tInscribe s j _ _ t am av hpkOkr]
      exact ⟨hWr, hPSr⟩
    · rw [viewNum_congr
        (view_tInscribe_event s i _ _ t am av _ j hj)] at hTIC
      have hgs : getSourceFrom
          (transferInscribe s i r.NewPkscript r.NewWallet t am av).view j =
          getSourceFrom s.view j := by
        unfold getSourceFrom
        rw [view_tInscribe_event s i _ _ t am av _ j hj,
          view_tInscribe_event s i _ _ t am av _ j hj,
          view_tInscribe_event s i _ _ t am av _ j hj]
      rw [hgs]
      exact hsv j hTIC
  | tFee i t am tx =>
    intro j hTIC
    dsimp only [perform] at hTIC ⊢
    rw [viewNum_congr (view_tFee_event s i t am tx _ j (by decide))] at hTIC
    have hgs : getSourceFrom (transferTransferSpendToFee s i t am tx).view j =
        getSourceFrom s.view j := by
      unfold getSourceFrom
      rw [view_tFee_event s i t am tx _ j (by decide),
        view_tFee_event s i t am tx _ j (by decide),
        view_tFee_event s i t am tx _ j (by decide)]
    rw [hgs]
    exact hsv j hTIC
  | tNormal i pk ad t am tx =>
    intro j hTIC
    dsimp only [perform] at hTIC ⊢
    rw [viewNum_congr (view_tNormal_event s i pk ad t am tx _ j (by decide))] at hTIC
    have hgs : getSourceFrom (transferTransferNormal s i pk ad t am tx).view j =
        getSourceFrom s.view j := by
      unfold getSourceFrom
      rw [view_tNormal_event s i pk ad t am tx _ j (by decide),
        view_tNormal_event s i pk ad t am tx _ j (by decide),
        view_tNormal_event s i pk ad t am tx _ j (by decide)]
    rw [hgs]
    exact hsv j hTIC

theorem balInv_execStep (W : String → Bytes) (PS : Set String)
    (hWinj : Set.InjOn W PS) (up : Nat) (s : HState) (r : OrdTransfer)
    (hP : pairedRec W PS r) (h : balInv W PS s) :
    balInv W PS (execStep up s r) := by
  obtain ⟨hbv, hbg, hsg, hsv⟩ := h
  exact ⟨balViews_perform W PS hWinj s r _ hP (classify_actionOk up s r)
      (classify_fromRec up s r) hsg hbv,
    balGets_perform W PS s _ hbg,
    srcGetInv_perform W PS s _ hsg,
    srcViewInv_perform W PS s r _ ⟨hP.1, hP.2.1, hP.2.2⟩
      (classify_fromRec up s r) hsv⟩

theorem balInv_Paging (W : String → Bytes) (PS : Set String) (s : HState)
    (g : Nat → Except String String) (q : Bool) (h : balInv W PS s) :
    balInv W PS ((s.Paging g q).1) := by
  obtain ⟨hbv, hbg, hsg, hsv⟩ := h
  refine ⟨?_, ?_, ?_, ?_⟩
  · intro p hp t'
    constructor
    · rw [Paging_view_view, Paging_view_view]
      exact (hbv p hp t').1
    · rw [Paging_view_view, Paging_view_view]
      exact (hbv p hp t').2
  · intro p hp t'
    constructor
    · rw [get_Paging, get_Paging]
      exact (hbv p hp t').1
    · rw [get_Paging, get_Paging]
      exact (hbv p hp t').2
  · intro i hTIC
    rw [GetValueOrZero_Paging] at hTIC
    rw [getSourceFrom_paged]
    exact hsv i hTIC
  · intro i hTIC
    rw [viewNum_congr (Paging_view_view s g q _)] at hTIC
    rw [getSourceFrom_view_Paging]
    exact hsv i hTIC

theorem balInv_initial (W : String → Bytes) (PS : Set String) :
    balInv W PS initialHState := by
  refine ⟨?_, ?_, ?_, ?_⟩
  · intro p hp t'
    exact ⟨rfl, rfl⟩
  · intro p hp t'
    exact ⟨rfl, rfl⟩
  · intro i hTIC
    exact absurd rfl hTIC
  · intro i hTIC
    exact absurd rfl hTIC

theorem balInv_reachable (W : String → Bytes) (PS : Set String)
    (hWinj : Set.InjOn W PS) {up : Nat} {s : HState}
    (h : ReachableP (pairedRec W PS) up s) : balInv W PS s := by
  induction h with
  | init => exact balInv_initial W PS
  | step hs hr ih => exact balInv_execStep W PS hWinj _ _ _ hr ih
  | page g q hs ih => exact balInv_Paging W PS _ g q ih

theorem GetValueOrZero_eq_of_get_eq {a b : HState} {k k' : HKey}
    (h : a.get k = b.get k') : a.GetValueOrZero k = b.GetValueOrZero k' := by
  unfold Header.GetValueOrZero Header.GetUInt256
  rw [h]

/-- C7: After every record processed by Exec (and across pagings), for each
holder and tick, the wallet-keyed available balance equals the pkscript-keyed
available balance, and the wallet-keyed overall balance equals the
pkscript-keyed overall balance — both in the staged view the record leaves
behind and in committed state. A holder is a pkscript p of the holder set PS
paired with its canonical wallet image W p: every processed record carries a
wallet that decodes to the canonical image of its pkscript (W injective on
PS, pkscripts lowercase hex of at most 126 nibbles, matching the stored
encoding). -/
theorem claim_C7_balance_consistency (W : String → Bytes) (PS : Set String)
    (hWinj : Set.InjOn W PS) (up : Nat) (s : HState)
    (hreach : ReachableP (pairedRec W PS) up s) :
    ∀ p ∈ PS, ∀ t : String,
      (s.viewNum (GetHash AvailableBalance (W p) t) =
        s.viewNum (GetHash AvailableBalancePkscript (strBytes p) t) ∧
       s.viewNum (GetHash OverallBalance (W p) t) =
        s.viewNum (GetHash OverallBalancePkscript (strBytes p) t)) ∧
      (s.GetValueOrZero (GetHash AvailableBalance (W p) t) =
        s.GetValueOrZero (GetHash AvailableBalancePkscript (strBytes p) t) ∧
       s.GetValueOrZero (GetHash OverallBalance (W p) t) =
        s.GetValueOrZero (GetHash OverallBalancePkscript (strBytes p) t)) := by
  obtain ⟨hbv, hbg, _, _⟩ := balInv_reachable W PS hWinj hreach
  intro p hp t
  exact ⟨⟨viewNum_eq_of_view_eq (hbv p hp t).1, viewNum_eq_of_view_eq (hbv p hp t).2⟩,
    GetValueOrZero_eq_of_get_eq (hbg p hp t).1,
    GetValueOrZero_eq_of_get_eq (hbg p hp t).2⟩

/-- Witness for C7: the single-holder instantiation (pkscript 00aa, wallet
addr1) after the example mint record, with both hypotheses discharged. -/
theorem claim_C7_witness :
    Set.InjOn (fun _ : String => decodeBitcoinAddress "addr1")
      ({"00aa"} : Set String) ∧
    ReachableP
      (pairedRec (fun _ : String => decodeBitcoinAddress "addr1")
        ({"00aa"} : Set String))
      exUpperLimit (execStep exUpperLimit initialHState exMintRec) ∧
    (∀ p ∈ ({"00aa"} : Set String), ∀ t : String,
      ((execStep exUpperLimit initialHState exMintRec).viewNum
          (GetHash AvailableBalance
            ((fun _ : String => decodeBitcoinAddress "addr1") p) t) =
        (execStep exUpperLimit initialHState exMintRec).viewNum
          (GetHash AvailableBalancePkscript (strBytes p) t) ∧
       (execStep exUpperLimit initialHState exMintRec).viewNum
          (GetHash OverallBalance
            ((fun _ : String => decodeBitcoinAddress "addr1") p) t) =
        (execStep exUpperLimit initialHState exMintRec).viewNum
          (GetHash OverallBalancePkscript (strBytes p) t)) ∧
      ((execStep exUpperLimit initialHState exMintRec).GetValueOrZero
          (GetHash AvailableBalance
            ((fun _ : String => decodeBitcoinAddress "addr1") p) t) =
        (execStep exUpperLimit initialHState exMintRec).GetValueOrZero
          (GetHash AvailableBalancePkscript (strBytes p) t) ∧
       (execStep exUpperLimit initialHState exMintRec).GetValueOrZero
          (GetHash OverallBalance
            ((fun _ : String => decodeBitcoinAddress "addr1") p) t) =
        (execStep exUpperLimit initialHState exMintRec).GetValueOrZero
          (GetHash OverallBalancePkscript (strBytes p) t))) := by
  have hinj : Set.InjOn (fun _ : String => decodeBitcoinAddress "addr1")
      ({"00aa"} : Set String) := by
    intro a ha b hb _
    simp only [Set.mem_singleton_iff] at ha hb
    rw [ha, hb]
  have hrec : pairedRec (fun _ : String => decodeBitcoinAddress "addr1")
      ({"00aa"} : Set String) exMintRec := by
    refine ⟨rfl, rfl, ?_, ?_⟩
    · intro c hc
      have hd : ("00aa" : String).data = ['0', '0', 'a', 'a'] := rfl
      rw [show exMintRec.NewPkscript = "00aa" from rfl, hd] at hc
      unfold isLowerHexDigit lowerHexDigits
      fin_cases hc <;> decide
    · decide
  have hre : ReachableP
      (pairedRec (fun _ : String => decodeBitcoinAddress "addr1")
        ({"00aa"} : Set String))
      exUpperLimit (execStep exUpperLimit initialHState exMintRec) :=
    ReachableP.step ReachableP.init hrec
  exact ⟨hinj, hre,
    claim_C7_balance_consistency (fun _ : String => decodeBitcoinAddress "addr1")
      ({"00aa"} : Set String) hinj exUpperLimit _ hre⟩
